import Mathlib

/-!
Verification development for the quick-gate CLI (a deterministic quality-gate
orchestrator with a bounded auto-repair loop).  The JavaScript sources are
shallowly embedded as Lean definitions; external effects (spawned commands,
the model runner, git diff sampling, JSON/URL parsing done by platform
libraries) are supplied as explicit oracle inputs, while all in-repository
logic is translated function by function.
-/

namespace QuickGate

/-! ## JS string primitives

`splitLinesChars` models the JavaScript `String.prototype.split(/\r?\n/)`:
each occurrence of `"\r\n"` or `"\n"` is a separator; a carriage return not
followed by a newline is ordinary content. -/

/-- Prepend a character to the first piece (a run of content characters
extends the current line). -/
def consHead (c : Char) : List (List Char) → List (List Char)
  | [] => [[c]]
  | h :: t => (c :: h) :: t

def splitLinesChars : List Char → List (List Char)
  | [] => [[]]
  | '\r' :: '\n' :: rest => [] :: splitLinesChars rest
  | '\n' :: rest => [] :: splitLinesChars rest
  | c :: rest => consHead c (splitLinesChars rest)

/-- `str.split(/\r?\n/)` at the `String` level. -/
def jsSplitLines (s : String) : List String :=
  (splitLinesChars s.data).map String.mk

/-- `array.join('\n')`, as used by the edit applier. -/
def joinLF : List String → String
  | [] => ""
  | [s] => s
  | s :: rest => s ++ "\n" ++ joinLF rest

/-- `String.prototype.startsWith` (over code points). -/
def strStartsWith (s pre : String) : Bool := pre.data.isPrefixOf s.data

/-- The `$`-anchored regex tests reduce to suffix checks. -/
def strEndsWith (s suf : String) : Bool := suf.data.isSuffixOf s.data

/-- `String.prototype.toLowerCase` (ASCII range, the only one the finding
ids use). -/
def strToLower (s : String) : String := String.mk (s.data.map Char.toLower)

/-- `String.prototype.split(sep)` for a one-character separator. -/
def splitOnCharAux (sep : Char) : List Char → List (List Char)
  | [] => [[]]
  | c :: rest =>
    if c = sep then [] :: splitOnCharAux sep rest
    else consHead c (splitOnCharAux sep rest)

def strSplitOnChar (sep : Char) (s : String) : List String :=
  (splitOnCharAux sep s.data).map String.mk

def containsAux (pat : List Char) : List Char → Bool
  | [] => pat.isPrefixOf []
  | c :: rest => pat.isPrefixOf (c :: rest) || containsAux pat rest

/-- `String.prototype.includes`. -/
def strIncludes (s pat : String) : Bool := containsAux pat.data s.data

/-- A character list is CRLF-well-formed when every `'\r'` is immediately
followed by `'\n'` (i.e. carriage returns occur only inside CRLF
terminators). -/
def crlfOnly : List Char → Bool
  | [] => true
  | [c] => c != '\r'
  | c :: d :: rest =>
    if c = '\r' then
      if d = '\n' then crlfOnly rest else false
    else crlfOnly (d :: rest)

/-! ## Workspace file system

The working tree visible to the edit applier, as a path-to-content map. -/

abbrev FS := List (String × String)

/-- `fs.existsSync` / `fs.readFileSync` on the modelled tree. -/
def fsRead (fs : FS) (p : String) : Option String :=
  (fs.find? (fun kv => kv.1 = p)).map (·.2)

/-- `fs.writeFileSync`: overwrite when present, create otherwise. -/
def fsWrite (fs : FS) (p : String) (content : String) : FS :=
  if fs.any (fun kv => kv.1 = p) then
    fs.map (fun kv => if kv.1 = p then (p, content) else kv)
  else
    fs ++ [(p, content)]

/-- `path.join(cwd, rel)` for a relative segment with no navigation, as the
applier receives after sanitization. -/
def pathJoin (cwd rel : String) : String := cwd ++ "/" ++ rel

/-! ## Edit plans (model-adapter module, `applyEditPlan` and friends) -/

/-- One normalized edit of an edit plan:
`{file, start_line, end_line, replacement}` with integer lines. -/
structure Edit where
  file : String
  start_line : Int
  end_line : Int
  replacement : String
deriving DecidableEq, Repr

structure EditPlan where
  summary : String
  edits : List Edit
deriving DecidableEq, Repr

inductive ApplyOutcome
  | ok (touched : List String)
  | failed (reason : String)
deriving DecidableEq, Repr

/-- Set-insertion into the ordered `touched` list (`Set.add` keeps first
insertion order). -/
def pushUnique (acc : List String) (f : String) : List String :=
  if f ∈ acc then acc else acc ++ [f]

/-- One iteration of `applyEditPlan`'s loop: read the file, validate the
inclusive line range, splice the replacement lines, persist.  Failures
return the reason string built by the source. -/
def applyOneEdit (cwd : String) (fs : FS) (edit : Edit) : Except String FS :=
  let filePath := pathJoin cwd edit.file
  match fsRead fs filePath with
  | none => .error ("missing_file:" ++ edit.file)
  | some content =>
    let lines := jsSplitLines content
    let startIndex : Int := edit.start_line - 1
    let endIndexExclusive : Int := edit.end_line
    if startIndex < 0 ∨ endIndexExclusive > (lines.length : Int) ∨
        startIndex ≥ endIndexExclusive then
      .error ("invalid_line_range:" ++ edit.file ++ ":" ++
        toString edit.start_line ++ "-" ++ toString edit.end_line)
    else
      let replacementLines := jsSplitLines edit.replacement
      let updated := joinLF
        (lines.take startIndex.toNat ++ replacementLines ++
          lines.drop endIndexExclusive.toNat)
      .ok (fsWrite fs filePath updated)

/-- The loop of `applyEditPlan`: edits are applied sequentially; a failure
stops the loop but keeps the mutations already made (the adapter does not
roll back partial applies). -/
def applyEditPlanGo (cwd : String) : FS → List String → List Edit →
    ApplyOutcome × FS
  | fs, touched, [] => (.ok touched, fs)
  | fs, touched, e :: rest =>
    match applyOneEdit cwd fs e with
    | .error r => (.failed r, fs)
    | .ok fs' => applyEditPlanGo cwd fs' (pushUnique touched e.file) rest

/-- `applyEditPlan({cwd, plan})` over the modelled tree. -/
def applyEditPlan (cwd : String) (plan : EditPlan) (fs : FS) :
    ApplyOutcome × FS :=
  applyEditPlanGo cwd fs [] plan.edits

/-- Spec-side description of one edit's effect: the replacement's split
lines spliced over the inclusive line range, rejoined with LF (lines
outside the range keep their text). -/
def spliceLines (content : String) (e : Edit) : String :=
  joinLF ((jsSplitLines content).take (e.start_line - 1).toNat ++
    jsSplitLines e.replacement ++
    (jsSplitLines content).drop e.end_line.toNat)

/-- Spec-side description of a whole plan's effect: apply the edits in
order, each one rewriting its file to the LF-joined splice of the file's
current lines.  (The missing-file branch is unreachable for a plan the
applier accepted.) -/
def specApplyPlan (cwd : String) : FS → List Edit → FS
  | fs, [] => fs
  | fs, e :: rest =>
    match fsRead fs (pathJoin cwd e.file) with
    | none => specApplyPlan cwd fs rest
    | some content =>
      specApplyPlan cwd
        (fsWrite fs (pathJoin cwd e.file) (spliceLines content e)) rest

/-! ## Finding / report data model

JavaScript objects are dynamic; the structures below carry every field any
embedded function reads, with `Option`/default values standing for absent
keys.  Numeric JSON values are modelled as exact rationals. -/

/-- A JSON scalar as stored in finding fields (`actual`, `threshold`). -/
inductive JVal
  | jnum (q : ℚ)
  | jstr (s : String)
deriving DecidableEq, Repr

structure FindingRaw where
  level : Option String := none
  auditProperty : Option String := none
  threshold_source : Option String := none
  operator : Option String := none
  command : Option String := none
  stderr_excerpt : Option String := none
  stdout_excerpt : Option String := none
deriving DecidableEq, Repr

structure Finding where
  id : String
  gate : String
  severity : String := "high"
  summary : String := ""
  files : List String := []
  route : Option String := none
  metric : Option String := none
  actual : Option JVal := none
  threshold : Option JVal := none
  status : String := "fail"
  raw : Option FindingRaw := none
deriving DecidableEq, Repr

structure GateEntry where
  name : String
  status : String
  duration_ms : Nat
deriving DecidableEq, Repr

structure Hint where
  finding_id : String
  hint : String
  confidence : String
deriving DecidableEq, Repr

/-- The `failures.json` document (written by `executeRun`, read back by the
repair loop). -/
structure FailuresDoc where
  version : String := "1.0.0"
  run_id : String := ""
  mode : String := "canary"
  status : String := "fail"
  timestamp : String := ""
  repo : Option String := none
  branch : Option String := none
  changed_files : List String := []
  gates : List GateEntry := []
  findings : List Finding := []
  inferred_hints : List Hint := []
deriving DecidableEq, Repr

/-- Result of the command runner (`exec.js` `runCommand`); produced by the
spawned process, hence supplied by oracles.  `started_at` is omitted: no
embedded logic reads it. -/
structure CmdResult where
  command : String := ""
  exit_code : Int := 0
  timed_out : Bool := false
  stdout : String := ""
  stderr : String := ""
  duration_ms : Nat := 0
deriving DecidableEq, Repr

/-! ## Model adapter (`model-adapter.js`)

`callOllama` shells out to a local model (or returns a mock env var) and
`parseJsonObject` runs the platform JSON parser on its text output; both are
external, so each model call is an oracle value: either a failure reason or
an output string together with the payload the JSON parser extracted from
it. -/

/-- `gatherFailureContext`: `pushFile` skips falsy (empty) and duplicate
paths, preserving insertion order. -/
def pushFileUnique (acc : List String) (f : String) : List String :=
  if f = "" ∨ f ∈ acc then acc else acc ++ [f]

/-- The deduplicated `changed_files ∪ finding.files` list of
`gatherFailureContext` (insertion order). -/
def preferredFiles (failures : FailuresDoc) : List String :=
  (failures.changed_files ++ failures.findings.flatMap (·.files)).foldl
    pushFileUnique []

/-- The part of the gathered failure context that steers control flow.  The
file snippets and reduced findings of `gatherFailureContext` only feed the
prompt string, which the model-call oracle consumes. -/
structure FailureContext where
  allowed_files : List String
deriving DecidableEq, Repr

def gatherFailureContext (failures : FailuresDoc) : FailureContext :=
  { allowed_files := (preferredFiles failures).take 12 }

/-- One raw edit as seen through `normalizeEditPlan`'s dynamic accesses:
`file` is `String(e.file || '')`, `start_line`/`end_line` are
`Number(e.start_line)` etc. where `some k` means the value is the integer
`k` and `none` means `Number.isInteger` is false (NaN or fractional), and
`replacement` is `String(e.replacement ?? '')`. -/
structure RawEdit where
  file : String
  start_line : Option Int
  end_line : Option Int
  replacement : String
deriving DecidableEq, Repr

/-- A parsed model payload as `runPatchModel` inspects it: `summary` is
`String(payload.summary || '')` and `edits` is `none` when `payload.edits`
is not an array. -/
structure PatchPayload where
  summary : String
  edits : Option (List RawEdit)
deriving DecidableEq, Repr

/-- `normalizeEditPlan`: coerce each edit, drop malformed ones, reject the
plan when no edit remains. -/
def normalizeEditPlan : Option PatchPayload → Option EditPlan
  | none => none
  | some payload =>
    match payload.edits with
    | none => none
    | some raws =>
      let edits := raws.filterMap (fun e =>
        match e.start_line, e.end_line with
        | some s, some t =>
          if e.file = "" then none
          else some { file := e.file, start_line := s, end_line := t,
                      replacement := e.replacement }
        | _, _ => none)
      if edits = [] then none
      else some { summary := payload.summary, edits := edits }

/-- `path.isAbsolute` on POSIX. -/
def isAbsolutePath (p : String) : Bool := strStartsWith p "/"

/-- `sanitizePlanPaths` on one edit: a cwd-rooted absolute path becomes
relative (`path.relative(cwd, raw)` for a direct child of `cwd`); any other
absolute path rejects the whole plan. -/
def sanitizeEdit (cwd : String) (e : Edit) : Option Edit :=
  if isAbsolutePath e.file then
    if strStartsWith e.file (cwd ++ "/") then
      some { e with file := e.file.drop (cwd.length + 1) }
    else none
  else some e

def sanitizePlanPaths (cwd : String) (plan : EditPlan) : Option EditPlan :=
  (plan.edits.mapM (sanitizeEdit cwd)).map
    (fun edits => { plan with edits := edits })

/-- `score` is the JS relevance score in exact hundredths (the source's
`Number((overlapRatio*0.7 + lineScore*0.3).toFixed(2))` times 100):
integer arithmetic stands in for the double computation, with `toFixed`
idealized as round-half-up on the exact value. -/
structure Scoring where
  score : Int
  predictedLines : Int
  touchedFiles : List String
deriving DecidableEq, Repr

/-- `100 · round2(a / b)` for `b > 0`: round `100·a/b` half up via floor
division `⌊(2·100·a + b) / (2b)⌋`. -/
def scoreHundredths (a b : Int) : Int := (2 * (100 * a) + b).fdiv (2 * b)

/-- `scoreEditPlan({edits, failures, maxPatchLines})`.  The score
`overlapRatio * 0.7 + lineScore * 0.3` equals
`(7·overlap + 3·lineScore·touched) / (10·touched)` exactly, so its
two-decimal rounding is `scoreHundredths` of that fraction. -/
def scoreEditPlan (edits : List Edit) (failures : FailuresDoc)
    (maxPatchLines : Int) : Scoring :=
  let changedFiles := failures.changed_files
  let findingFiles := failures.findings.flatMap (·.files)
  let touchedFiles := edits.foldl (fun acc e => pushUnique acc e.file) []
  let predictedLines := edits.foldl
    (fun acc e =>
      acc + max 0 (e.end_line - e.start_line + 1) +
        ((jsSplitLines e.replacement).length : Int)) 0
  let overlap := (touchedFiles.filter
    (fun f => f ∈ changedFiles ∨ f ∈ findingFiles)).length
  let lineScore : Int := if predictedLines ≤ maxPatchLines then 1 else 0
  let score : Int :=
    if touchedFiles.length = 0 then 30 * lineScore
    else scoreHundredths
      (7 * overlap + 3 * lineScore * touchedFiles.length)
      (10 * touchedFiles.length)
  { score := score,
    predictedLines := predictedLines,
    touchedFiles := touchedFiles }

/-- Oracle outcome of one `callOllama` patch invocation: either `ok:false`
with a reason (`missing_model`, `model_command_timeout`,
`model_command_failed`) or the raw output text together with the payload
`parseJsonObject` extracted from it (`none` when unparsable). -/
inductive PatchCall
  | err (reason : String) (stderr : String)
  | ok (output : String) (parsed : Option PatchPayload)
deriving DecidableEq, Repr

/-- Model routing policy (from `getModelRoutingPolicy`). -/
structure ModelPolicy where
  hintModel : String
  patchModel : String
  hintOnly : List String
  allowHintOnlyPatch : Bool
  timeoutMs : Int
deriving DecidableEq, Repr

/-- The adapter result record for `runPatchModel` (the union of the fields
of the objects the source returns on each path; absent fields are `none`
or `[]`). -/
structure PatchRecord where
  attempted : Bool
  strategy : String := "ollama_patch_plan"
  accepted : Bool
  model : String
  reason : Option String := none
  stderr : Option String := none
  output_excerpt : Option String := none
  out_of_scope_files : List String := []
  predicted_lines : Option Int := none
  max_patch_lines : Option Int := none
  score : Option Int := none
  patch_lines : Option Int := none
  touched_files : List String := []
  summary : Option String := none
  details : Option String := none
  proposal : Option EditPlan := none
deriving DecidableEq, Repr

/-- The candidate plan `runPatchModel` derives after a successful first
call: parse→normalize→sanitize, and on failure the one-shot retry with the
second call.  When the retry call itself fails, the source keeps `plan`
null and `response.output` becomes undefined, so the excerpt is empty. -/
def patchCandidate (cwd : String) (output1 : String)
    (parsed1 : Option PatchPayload) (call2 : PatchCall) :
    Option EditPlan × String :=
  let plan0 := (normalizeEditPlan parsed1).bind (sanitizePlanPaths cwd)
  match plan0 with
  | some p => (some p, output1)
  | none =>
    match call2 with
    | .ok output2 parsed2 =>
      ((normalizeEditPlan parsed2).bind (sanitizePlanPaths cwd), output2)
    | .err _ _ => (none, "")

/-- `runPatchModel`: the full decision chain (hint-only deny list, model
call with one retry, scope check, predicted-size budget, relevance score,
apply), returning the action record and the possibly mutated tree. -/
def runPatchModel (cwd : String) (failures : FailuresDoc)
    (policy : ModelPolicy) (maxPatchLines : Int) (fs : FS)
    (call1 call2 : PatchCall) : PatchRecord × FS :=
  if policy.patchModel ∈ policy.hintOnly then
    ({ attempted := false, accepted := false, model := policy.patchModel,
       reason := some "patch_model_is_hint_only" }, fs)
  else
    let context := gatherFailureContext failures
    match call1 with
    | .err reason stderr =>
      ({ attempted := true, accepted := false, model := policy.patchModel,
         reason := some reason, stderr := some stderr }, fs)
    | .ok output1 parsed1 =>
      match patchCandidate cwd output1 parsed1 call2 with
      | (none, outputFinal) =>
        ({ attempted := true, accepted := false, model := policy.patchModel,
           reason := some "invalid_edit_plan_json",
           output_excerpt := some (outputFinal.take 500) }, fs)
      | (some plan, _) =>
        let allowed := context.allowed_files
        let outOfScope := (plan.edits.map (·.file)).filter
          (fun file => file ∉ allowed)
        if outOfScope ≠ [] then
          ({ attempted := true, accepted := false,
             model := policy.patchModel,
             reason := some "file_out_of_scope",
             out_of_scope_files := outOfScope,
             proposal := some plan }, fs)
        else
          let scoring := scoreEditPlan plan.edits failures maxPatchLines
          if scoring.predictedLines > maxPatchLines then
            ({ attempted := true, accepted := false,
               model := policy.patchModel,
               reason := some "patch_budget_exceeded",
               predicted_lines := some scoring.predictedLines,
               max_patch_lines := some maxPatchLines }, fs)
          else if scoring.score < 50 then
            ({ attempted := true, accepted := false,
               model := policy.patchModel,
               reason := some "diff_score_too_low",
               score := some scoring.score,
               touched_files := scoring.touchedFiles,
               proposal := some plan }, fs)
          else
            match applyEditPlan cwd plan fs with
            | (.failed r, fs') =>
              ({ attempted := true, accepted := false,
                 model := policy.patchModel,
                 reason := some "apply_plan_failed",
                 details := some r, proposal := some plan }, fs')
            | (.ok _, fs') =>
              ({ attempted := true, accepted := true,
                 model := policy.patchModel,
                 score := some scoring.score,
                 patch_lines := some scoring.predictedLines,
                 touched_files := scoring.touchedFiles,
                 summary := some plan.summary,
                 proposal := some plan }, fs')

/-! ## Gate runner (`gates.js`)

`packageScripts` reads and `JSON.parse`s `package.json`;
`parseLighthouseFindings` does the same for
`.lighthouseci/assertion-results.json`.  The platform parser is external,
so each file is an oracle: absent, unreadable (content on which
`JSON.parse` throws, or a parsed value whose property access / iteration
throws, e.g. `null` or a non-array artifact), or the parsed data. -/

inductive ManifestState
  | missing
  | unreadable
  | pkg (scripts : List (String × String))
deriving DecidableEq, Repr

/-- The `url` field of an assertion record, as seen through `new URL(...)`
(an external platform API): falsy/absent, parsed with the given `pathname`
(the path component, query stripped), or a string the constructor throws
on. -/
inductive UrlField
  | missing
  | parsed (raw : String) (pathname : String)
  | unparsable (raw : String)
deriving DecidableEq, Repr

/-- One record of the assertion-results artifact.  `assertion` and
`message` use `""` for a missing or empty value (both falsy, handled
identically); `expected` is present exactly when `typeof` is number or
string; `value` carries the string rendering used by
`String(row.value ?? 'n/a')`. -/
structure AssertionRow where
  passed : Bool
  url : UrlField := .missing
  assertion : String := ""
  expected : Option JVal := none
  numericValue : Option ℚ := none
  value : Option String := none
  message : String := ""
  level : Option String := none
  auditProperty : Option String := none
  operator : Option String := none
deriving DecidableEq, Repr

inductive ArtifactState
  | absent
  | unreadable
  | rows (rs : List AssertionRow)
deriving DecidableEq, Repr

/-- Why `runDeterministicGates` / `executeRun` throws. -/
inductive RunError
  | noPackageJson
  | manifestUnreadable
  | artifactUnreadable
  | schemaValidationFailed
deriving DecidableEq, Repr

/-- The `routePath` closure of `parseLighthouseFindings`: `/` for a falsy
url, the pathname (or `/` when it is empty) when `new URL` succeeds, and
`String(rawUrl)` when it throws. -/
def routePath : UrlField → String
  | .missing => "/"
  | .parsed _ p => if p = "" then "/" else p
  | .unparsable raw => raw

/-- `[^a-zA-Z0-9]` of the finding-id regex. -/
def jsIsAlnum (c : Char) : Bool := c.isAlpha || c.isDigit

/-- `replace(/[^a-zA-Z0-9]+/g, '_')`: each maximal run of non-alphanumeric
characters collapses to one underscore (`inRun` tracks being inside such a
run). -/
def collapseGo : Bool → List Char → List Char
  | _, [] => []
  | inRun, c :: rest =>
    if jsIsAlnum c then c :: collapseGo false rest
    else if inRun then collapseGo true rest
    else '_' :: collapseGo true rest

def slugUnderscore (s : String) : String := String.mk (collapseGo false s.data)

/-- Assoc-list lookup standing for JS object key access (`obj[k]`,
`undefined` when absent). -/
def lookupKey {α : Type} (m : List (String × α)) (k : String) : Option α :=
  (m.find? (fun kv => kv.1 = k)).map (·.2)

/-- `thresholdForAssertion`: value and `threshold_source`, first match
wins. -/
def thresholdForAssertion (row : AssertionRow)
    (metricThresholds : List (String × ℚ)) : JVal × String :=
  match row.expected with
  | some v => (v, "assertion_expected")
  | none =>
    match strSplitOnChar ':' row.assertion with
    | [a, b] =>
      if a = "categories" then
        match lookupKey metricThresholds b with
        | some t => (.jnum t, "config_category:" ++ b)
        | none =>
          match lookupKey metricThresholds row.assertion with
          | some t => (.jnum t, "config_metric:" ++ row.assertion)
          | none => (.jstr "n/a", "unknown")
      else
        match lookupKey metricThresholds row.assertion with
        | some t => (.jnum t, "config_metric:" ++ row.assertion)
        | none => (.jstr "n/a", "unknown")
    | _ =>
      match lookupKey metricThresholds row.assertion with
      | some t => (.jnum t, "config_metric:" ++ row.assertion)
      | none => (.jstr "n/a", "unknown")

/-- The finding built for one failing assertion row (the loop body of
`parseLighthouseFindings`); `none` for a passing row. -/
def mkLhFinding (row : AssertionRow)
    (metricThresholds : List (String × ℚ)) : Option Finding :=
  if row.passed then none
  else
    let route := routePath row.url
    let metric := if row.assertion = "" then "lighthouse_assertion"
      else row.assertion
    let threshold := thresholdForAssertion row metricThresholds
    let findingId :=
      strToLower ("lh_" ++ slugUnderscore route ++ "_" ++ slugUnderscore metric)
    let actual : JVal :=
      match row.numericValue with
      | some q => .jnum q
      | none => .jstr (row.value.getD "n/a")
    some
      { id := findingId, gate := "lighthouse", severity := "high",
        summary := if row.message = "" then
            "Lighthouse assertion failed: " ++ metric
          else row.message,
        route := some route, metric := some metric,
        actual := some actual, threshold := some threshold.1,
        status := "fail",
        raw := some { level := row.level,
                      auditProperty := row.auditProperty,
                      threshold_source := some threshold.2,
                      operator := row.operator } }

/-- `parseLighthouseFindings(cwd, thresholds)` against the oracle artifact
state. -/
def parseLighthouseFindings (artifact : ArtifactState)
    (thresholds : List (String × ℚ)) : Except RunError (List Finding) :=
  match artifact with
  | .absent => .ok []
  | .unreadable => .error .artifactUnreadable
  | .rows rs => .ok (rs.filterMap (fun row => mkLhFinding row thresholds))

/-- `text.split('\n').slice(0, 30).join('\n')`. -/
def excerpt30 (s : String) : String :=
  joinLF ((strSplitOnChar '\n' s).take 30)

/-- `findingForExitCode(gate, result)`; `now` is the `Date.now()`
timestamp used in the id. -/
def findingForExitCode (gate : String) (result : CmdResult) (now : Nat) :
    Finding :=
  { id := gate ++ "_exit_" ++ toString now,
    gate := gate,
    severity := if gate = "build" then "critical" else "high",
    summary := gate ++ " command failed with exit code " ++
      toString result.exit_code,
    actual := some (.jnum (result.exit_code : ℚ)),
    threshold := some (.jnum 0),
    status := "fail",
    raw := some { command := some result.command,
                  stderr_excerpt := some (excerpt30 result.stderr),
                  stdout_excerpt := some (excerpt30 result.stdout) } }

/-- JS-truthy object lookup: a present but empty string is falsy. -/
def truthyLookup (m : List (String × String)) (k : String) : Option String :=
  match lookupKey m k with
  | some v => if v = "" then none else some v
  | none => none

/-- `resolveGateCommand(gate, scripts, configCommands)`. -/
def resolveGateCommand (gate : String) (scripts : List (String × String))
    (configCommands : List (String × String)) : Option String :=
  match truthyLookup configCommands gate with
  | some c => some c
  | none =>
    if gate = "typecheck" then
      if (truthyLookup scripts "typecheck").isSome then
        some "npm run typecheck"
      else some "npx tsc --noEmit"
    else if (truthyLookup scripts gate).isSome then
      some ("npm run " ++ gate)
    else if gate = "lighthouse" then
      if (truthyLookup scripts "lighthouse").isSome then
        some "npm run lighthouse"
      else if (truthyLookup scripts "ci:lighthouse").isSome then
        some "npm run ci:lighthouse"
      else if (truthyLookup scripts "lhci").isSome then
        some "npm run lhci"
      else some
        "npx lhci autorun --upload.target=filesystem --upload.outputDir=.quick-gate/lhci"
    else none

structure GateConfig where
  commands : List (String × String) := []
  thresholds : List (String × ℚ) := []
deriving DecidableEq, Repr

structure GatesOutput where
  gates : List GateEntry
  findings : List Finding
  traces : List CmdResult
deriving DecidableEq, Repr

/-- The gate plan of `runDeterministicGates`: build is enabled only in
full mode. -/
def gatePlan (mode : String) : List (String × Bool) :=
  [("lint", true), ("typecheck", true), ("build", mode = "full"),
   ("lighthouse", true)]

/-- The per-gate loop of `runDeterministicGates`, accumulating gate
entries, findings and traces.  `exec` is the command-runner oracle. -/
def runGatesGo (cfg : GateConfig) (scripts : List (String × String))
    (changedFiles : List String) (artifact : ArtifactState)
    (exec : String → CmdResult) (now : Nat) :
    List (String × Bool) → List GateEntry → List Finding →
    List CmdResult → Except RunError GatesOutput
  | [], gates, findings, traces =>
    .ok { gates := gates, findings := findings, traces := traces }
  | (name, enabled) :: rest, gates, findings, traces =>
    if !enabled then
      runGatesGo cfg scripts changedFiles artifact exec now rest
        (gates ++ [{ name := name, status := "skipped", duration_ms := 0 }])
        findings traces
    else
      match resolveGateCommand name scripts cfg.commands with
      | none =>
        runGatesGo cfg scripts changedFiles artifact exec now rest
          (gates ++ [{ name := name, status := "fail", duration_ms := 0 }])
          (findings ++
            [{ id := name ++ "_missing_command", gate := name,
               severity := "high",
               summary := "No command configured for gate: " ++ name,
               files := changedFiles,
               actual := some (.jstr "missing"),
               threshold := some (.jstr "configured_command_required"),
               status := "fail" }])
          traces
      | some command =>
        let result := exec command
        let status := if result.exit_code = 0 then "pass" else "fail"
        let gates' := gates ++
          [{ name := name, status := status,
             duration_ms := result.duration_ms }]
        let traces' := traces ++ [result]
        if status = "fail" then
          if name = "lighthouse" then
            match parseLighthouseFindings artifact cfg.thresholds with
            | .error e => .error e
            | .ok lighthouseFindings =>
              let newFindings :=
                if lighthouseFindings.length > 0 then lighthouseFindings
                else [findingForExitCode name result now]
              runGatesGo cfg scripts changedFiles artifact exec now rest
                gates' (findings ++ newFindings) traces'
          else
            runGatesGo cfg scripts changedFiles artifact exec now rest
              gates' (findings ++ [findingForExitCode name result now])
              traces'
        else
          runGatesGo cfg scripts changedFiles artifact exec now rest
            gates' findings traces'

/-- `runDeterministicGates({mode, cwd, config, changedFiles})`. -/
def runDeterministicGates (mode : String) (cfg : GateConfig)
    (changedFiles : List String) (manifest : ManifestState)
    (artifact : ArtifactState) (exec : String → CmdResult) (now : Nat) :
    Except RunError GatesOutput :=
  match manifest with
  | .missing => .error .noPackageJson
  | .unreadable => .error .manifestUnreadable
  | .pkg scripts =>
    runGatesGo cfg scripts changedFiles artifact exec now (gatePlan mode)
      [] [] []

/-! ## `executeRun` (`run-command.js`)

`runId`, `timestamp` and the git metadata come from the clock, the UUID
generator and the git commands, hence oracles; `schemaOK` is the
`validateAgainstSchema` verdict on the payload (the ajv schema module is
out of the embedded core).  The run-metadata artifact carries only traces
and timing and is not modelled. -/

structure RunOutput where
  status : String
  payload : FailuresDoc
deriving DecidableEq, Repr

def executeRun (mode : String) (changedFiles : List String)
    (cfg : GateConfig) (manifest : ManifestState)
    (artifact : ArtifactState) (exec : String → CmdResult) (now : Nat)
    (runId timestamp : String) (gitRepo gitBranch : Option String)
    (schemaOK : FailuresDoc → Bool) : Except RunError RunOutput :=
  match runDeterministicGates mode cfg changedFiles manifest artifact exec
      now with
  | .error e => .error e
  | .ok gateResult =>
    let status := if gateResult.findings.length > 0 then "fail" else "pass"
    let failuresPayload : FailuresDoc :=
      { version := "1.0.0", run_id := runId, mode := mode, status := status,
        timestamp := timestamp, repo := gitRepo, branch := gitBranch,
        changed_files := changedFiles, gates := gateResult.gates,
        findings := gateResult.findings,
        inferred_hints := gateResult.findings.map (fun finding =>
          { finding_id := finding.id,
            hint := "Start with the deterministic gate failure in " ++
              finding.gate ++
              " and inspect command output in run-metadata traces.",
            confidence := "low" }) }
    if !schemaOK failuresPayload then .error .schemaValidationFailed
    else .ok { status := status, payload := failuresPayload }

/-! ## Configuration (`constants.js`, `config.js`) and repair policy

Policy values are JSON integers per the configuration contract; the JS
`Number(...)` wrappers are identities on them. -/

structure Policy where
  maxAttempts : Int
  maxPatchLines : Int
  abortOnNoImprovement : Int
  timeCapMs : Int
deriving DecidableEq, Repr

/-- `DEFAULT_POLICY` from `constants.js`. -/
def DEFAULT_POLICY : Policy :=
  { maxAttempts := 3, maxPatchLines := 150, abortOnNoImprovement := 2,
    timeCapMs := 20 * 60 * 1000 }

/-- The `policy` object of `quick-gate.config.json` (each key optional). -/
structure UserPolicy where
  maxAttempts : Option Int := none
  maxPatchLines : Option Int := none
  abortOnNoImprovement : Option Int := none
  timeCapMs : Option Int := none
deriving DecidableEq, Repr

/-- A parsed `quick-gate.config.json`. -/
structure UserConfig where
  policy : Option UserPolicy := none
  commands : List (String × String) := []
  lighthouseThresholds : List (String × ℚ) := []
deriving DecidableEq, Repr

structure LoadedConfig where
  policy : Policy
  commands : List (String × String)
  thresholds : List (String × ℚ)
  source : String
deriving DecidableEq, Repr

def defaultThresholds : List (String × ℚ) :=
  [("performance", 8 / 10), ("accessibility", 8 / 10),
   ("best-practices", 8 / 10), ("seo", 8 / 10)]

/-- Object spread `{...base, ...over}` on a threshold map: keys of `over`
win. -/
def mergeThresholds (base over : List (String × ℚ)) :
    List (String × ℚ) :=
  base.map (fun kv => (kv.1, (lookupKey over kv.1).getD kv.2)) ++
    over.filter (fun kv => (lookupKey base kv.1).isNone)

/-- `{...DEFAULT_POLICY, ...(userConfig.policy || {})}`: a key present in
the user policy overrides the default even when its value is `0`. -/
def mergePolicy (u : Option UserPolicy) : Policy :=
  let up := u.getD {}
  { maxAttempts := up.maxAttempts.getD DEFAULT_POLICY.maxAttempts,
    maxPatchLines := up.maxPatchLines.getD DEFAULT_POLICY.maxPatchLines,
    abortOnNoImprovement :=
      up.abortOnNoImprovement.getD DEFAULT_POLICY.abortOnNoImprovement,
    timeCapMs := up.timeCapMs.getD DEFAULT_POLICY.timeCapMs }

/-- `loadConfig(cwd)`: `none` models a missing `quick-gate.config.json`. -/
def loadConfig (userConfig : Option UserConfig) : LoadedConfig :=
  match userConfig with
  | none =>
    { policy := DEFAULT_POLICY, commands := [],
      thresholds := defaultThresholds, source := "defaults" }
  | some u =>
    { policy := mergePolicy u.policy, commands := u.commands,
      thresholds := mergeThresholds defaultThresholds
        u.lighthouseThresholds,
      source := "quick-gate.config.json" }

/-- JS `a || b` on numbers: `0` (and `NaN`, modelled by the caller as an
absent value) falls through to `b`. -/
def jsOrI (a b : Int) : Int := if a = 0 then b else a

/-- The policy computation at the top of `executeRepair`:
`Number(maxAttempts || config.policy.X || DEFAULT_POLICY.X)` for each
field.  `cliMaxAttempts = none` models an absent (undefined, falsy)
`--max-attempts`. -/
def mkRepairPolicy (cliMaxAttempts : Option Int) (config : LoadedConfig) :
    Policy :=
  { maxAttempts := jsOrI (cliMaxAttempts.getD 0)
      (jsOrI config.policy.maxAttempts DEFAULT_POLICY.maxAttempts),
    maxPatchLines :=
      jsOrI config.policy.maxPatchLines DEFAULT_POLICY.maxPatchLines,
    abortOnNoImprovement := jsOrI config.policy.abortOnNoImprovement
      DEFAULT_POLICY.abortOnNoImprovement,
    timeCapMs := jsOrI config.policy.timeCapMs DEFAULT_POLICY.timeCapMs }

/-! ## Model routing (`getModelRoutingPolicy`) -/

/-- The process environment slice the adapters read; `""` models an unset
(falsy) variable, and `timeoutRaw = none` a `QUICK_GATE_MODEL_TIMEOUT_MS`
that is unset. -/
structure EnvVars where
  hintModel : String := ""
  patchModel : String := ""
  allowHintOnlyPatch : String := ""
  timeoutRaw : Option Int := none
deriving DecidableEq, Repr

def jsOrS (a b : String) : String := if a = "" then b else a

def getModelRoutingPolicy (env : EnvVars) : ModelPolicy :=
  let allowHintOnlyPatch := env.allowHintOnlyPatch = "1"
  { hintModel := jsOrS env.hintModel "qwen2.5:1.5b",
    patchModel := jsOrS env.patchModel "mistral:7b",
    hintOnly := if allowHintOnlyPatch then []
      else ["qwen2.5:1.5b", "qwen3:4b", "llama3.2:latest"],
    allowHintOnlyPatch := allowHintOnlyPatch,
    timeoutMs := env.timeoutRaw.getD 60000 }

/-! ## Hint adapter (`runHintModel`) -/

/-- Oracle outcome of one hint-model call: failure reason, or output with
the `parsed?.hints` array when present (`Array.isArray` check). -/
inductive HintCall
  | err (reason : String) (stderr : String)
  | ok (output : String) (hints : Option (List Hint))
deriving DecidableEq, Repr

structure HintRecord where
  attempted : Bool := true
  strategy : String := "ollama_hint"
  accepted : Bool
  model : String
  reason : Option String := none
  stderr : Option String := none
  hints : List Hint := []
deriving DecidableEq, Repr

def runHintModel (failures : FailuresDoc) (policy : ModelPolicy)
    (call : HintCall) : HintRecord :=
  let _context := gatherFailureContext failures
  match call with
  | .err reason stderr =>
    { accepted := false, model := policy.hintModel,
      reason := some reason, stderr := some stderr }
  | .ok _ parsedHints =>
    { accepted := true, model := policy.hintModel,
      hints := (parsedHints.getD []).take 6 }

/-! ## Deterministic pre-fixer (`deterministic-prefix.js`) -/

/-- `path.extname(f) !== ''`: the basename has a dot at a position other
than the first. -/
def hasExtension (f : String) : Bool :=
  match ((strSplitOnChar '/' f).getLastD "").data with
  | [] => false
  | _ :: rest => rest.contains '.'

/-- `/\.(js|jsx|ts|tsx|mjs|cjs)$/`. -/
def hasSourceExt (f : String) : Bool :=
  strEndsWith f ".js" || strEndsWith f ".jsx" || strEndsWith f ".ts" ||
  strEndsWith f ".tsx" || strEndsWith f ".mjs" || strEndsWith f ".cjs"

/-- `/(^|\/)(dist|build|coverage|\.next)\//`. -/
def inBuildDir (f : String) : Bool :=
  ["dist/", "build/", "coverage/", ".next/"].any (fun p =>
    strStartsWith f p || strIncludes f ("/" ++ p))

/-- `/\.min\.(js|mjs|cjs)$/`. -/
def isMinified (f : String) : Bool :=
  strEndsWith f ".min.js" || strEndsWith f ".min.mjs" ||
  strEndsWith f ".min.cjs"

/-- `isEligibleFile` from `runDeterministicPreFix`. -/
def isEligibleFile (f : String) : Bool :=
  hasSourceExt f && !inBuildDir f && !isMinified f

/-- `inScopeFiles(failures)`: changed files then finding files, falsy and
duplicate entries skipped. -/
def inScopeFiles (failures : FailuresDoc) : List String :=
  (failures.changed_files ++ failures.findings.flatMap (·.files)).foldl
    pushFileUnique []

def hasGateFailure (failures : FailuresDoc) (gate : String) : Bool :=
  failures.findings.any (fun f => f.gate = gate)

/-- The scoped file set of `runDeterministicPreFix`. -/
def scopedFiles (failures : FailuresDoc) : List String :=
  ((((((inScopeFiles failures).filter (fun f => !(strStartsWith f "."))).filter
    (fun f => !isAbsolutePath f)).filter
    (fun f => !strIncludes f "..")).filter
    (fun f => !strIncludes f "node_modules")).filter
    (fun f => hasExtension f)).filter (fun f => isEligibleFile f)
    |>.take 20

def singleQuote : String := String.mk [Char.ofNat 39]

/-- `shellQuote`: wrap in single quotes, escaping embedded ones with the
`'"'"'` sequence. -/
def shellQuote (v : String) : String :=
  let escape := String.mk
    [Char.ofNat 39, Char.ofNat 34, Char.ofNat 39, Char.ofNat 34,
     Char.ofNat 39]
  singleQuote ++
    String.mk (v.data.flatMap (fun c =>
      if c = Char.ofNat 39 then escape.data else [c])) ++
    singleQuote

/-- A repair action record (the heterogeneous objects pushed onto the
`attempted` list, one constructor per shape; constant `strategy` fields
are implicit in the constructor). -/
inductive RepairAction
  | lintAutofix (accepted : Bool) (command : String) (exit_code : Int)
      (files : List String)
  | deterministicRerun (status : String) (findings_after_rerun : Nat)
  | deterministicOnlyMode
  | requiresManualPatch
  | skipModelPatch (gates : List String)
  | hintAction (r : HintRecord)
  | patchAction (r : PatchRecord)
deriving DecidableEq, Repr

/-- `runLintProblemAutofix`: `null` when no scoped file remains, else the
action record of the `npx eslint … --fix --fix-type problem` run. -/
def runLintProblemAutofix (files : List String)
    (exec : String → CmdResult) : Option RepairAction :=
  if files = [] then none
  else
    let cmd := "npx eslint " ++
      String.intercalate " " (files.map shellQuote) ++
      " --fix --fix-type problem"
    let result := exec cmd
    some (.lintAutofix (result.exit_code = 0) cmd result.exit_code files)

/-- `runDeterministicPreFix({cwd, failures})`: rule 1 only (lint problem
autofix on the scoped files). -/
def runDeterministicPreFix (failures : FailuresDoc)
    (exec : String → CmdResult) : List RepairAction :=
  if hasGateFailure failures "lint" then
    match runLintProblemAutofix (scopedFiles failures) exec with
    | some a => [a]
    | none => []
  else []

/-! ## Repair loop (`repair-command.js`)

External effects per attempt are one oracle bundle: the wall-clock
time-cap comparison, the two git numstat samples, the command runner used
by the pre-fixer, the refreshed `failures.json` documents written by the
gate reruns (their `status` field and the `executeRun` return status agree
by construction of `executeRun`), the model-call outcomes and the working
tree the adapters see. -/

structure AttemptWorld where
  timeCapHit : Bool := false
  preDiff : List (String × Nat) := []
  postDiff : List (String × Nat) := []
  exec : String → CmdResult := fun _ => {}
  prefixRerunDoc : FailuresDoc := {}
  hintCall : HintCall := .err "missing_model" ""
  patchCall1 : PatchCall := .err "missing_model" ""
  patchCall2 : PatchCall := .err "missing_model" ""
  fs : FS := []
  rerunDoc : FailuresDoc := {}

/-- `computePatchLines(beforeMap, afterMap)`: sum of `|after − before|`
over the union of keys. -/
def computePatchLines (beforeMap afterMap : List (String × Nat)) : Nat :=
  let allFiles := (beforeMap.map (·.1) ++ afterMap.map (·.1)).foldl
    pushUnique []
  allFiles.foldl (fun total file =>
    let before := (lookupKey beforeMap file).getD 0
    let after := (lookupKey afterMap file).getD 0
    total + max before after - min before after) 0

structure ActionsResult where
  attempted : List RepairAction
  currentFailures : FailuresDoc
  shortCircuitPass : Bool

/-- `runRepairActions(cwd, failures, policy, deterministicOnly)`. -/
def runRepairActions (failures : FailuresDoc) (policy : Policy)
    (deterministicOnly : Bool) (env : EnvVars) (cwd : String)
    (w : AttemptWorld) : ActionsResult :=
  let deterministicActions := runDeterministicPreFix failures w.exec
  let attempted0 := deterministicActions
  let (attempted1, currentFailures) :=
    if deterministicActions.length > 0 then
      (attempted0 ++
        [.deterministicRerun w.prefixRerunDoc.status
          w.prefixRerunDoc.findings.length],
        w.prefixRerunDoc)
    else (attempted0, failures)
  if currentFailures.findings.length = 0 then
    { attempted := attempted1, currentFailures := currentFailures,
      shortCircuitPass := true }
  else if deterministicOnly then
    { attempted := attempted1 ++ [.deterministicOnlyMode],
      currentFailures := currentFailures, shortCircuitPass := false }
  else
    let hasTypecheckFailure := hasGateFailure currentFailures "typecheck"
    let hasBuildFailure := hasGateFailure currentFailures "build"
    let hasLighthouseFailure := hasGateFailure currentFailures "lighthouse"
    let hasLintFailure := hasGateFailure currentFailures "lint"
    let attempted2 := attempted1 ++
      (if hasTypecheckFailure || hasBuildFailure || hasLighthouseFailure
        then [.requiresManualPatch] else [])
    let modelPatchAllowed := hasLintFailure || hasTypecheckFailure
    if !modelPatchAllowed then
      { attempted := attempted2 ++
          [.skipModelPatch
            ((currentFailures.findings.map (·.gate)).foldl pushUnique [])],
        currentFailures := currentFailures, shortCircuitPass := false }
    else
      let modelPolicy := getModelRoutingPolicy env
      let hintResult := runHintModel currentFailures modelPolicy w.hintCall
      let patchResult := (runPatchModel cwd currentFailures modelPolicy
        policy.maxPatchLines w.fs w.patchCall1 w.patchCall2).1
      { attempted := attempted2 ++
          [.hintAction hintResult, .patchAction patchResult],
        currentFailures := currentFailures, shortCircuitPass := false }

structure AttemptRecord where
  attempt : Nat
  patch_lines : Nat
  before_findings : Nat
  after_findings : Nat
  improved : Bool
  worsened : Bool
  status : String
  actions : List RepairAction
deriving DecidableEq, Repr

/-- Terminal outcome of one `executeRepair` invocation, mirroring the
payload written on each return path. -/
inductive RepairOutcome
  | passReport (attempts : List AttemptRecord)
  | escTimeCap
  | escPatchBudget (attempt : Nat) (patch_lines : Nat)
  | escNoImprovement (attempts : List AttemptRecord)
  | escExhausted
deriving DecidableEq, Repr

/-- Presence of the two terminal artifacts under `.quick-gate/`, plus a
counter of artifact writes performed by this invocation
(`writeJsonFileSync` creates or overwrites, never deletes). -/
structure ArtifactFS where
  hasRepairReport : Bool := false
  hasEscalation : Bool := false
  writes : Nat := 0
deriving DecidableEq, Repr

def writeRepairReport (a : ArtifactFS) : ArtifactFS :=
  { a with hasRepairReport := true, writes := a.writes + 1 }

def writeEscalation (a : ArtifactFS) : ArtifactFS :=
  { a with hasEscalation := true, writes := a.writes + 1 }

structure RepairResult where
  outcome : RepairOutcome
  artifacts : ArtifactFS
deriving Repr

/-- The `for (let attempt = 1; …)` loop of `executeRepair`; `remaining`
counts the iterations left (`maxAttempts` at entry), `worlds n` is the
oracle bundle of attempt `n`.  Workspace backup/restore only touch backup
directories and the tree, both external. -/
def repairLoop (policy : Policy) (deterministicOnly : Bool) (env : EnvVars)
    (cwd : String) (worlds : Nat → AttemptWorld) :
    Nat → Nat → FailuresDoc → Nat → Nat → List AttemptRecord →
    ArtifactFS → RepairResult
  | 0, _, _, _, _, _, art => ⟨.escExhausted, writeEscalation art⟩
  | r + 1, attempt, failures, previousCount, noImprovement, attempts,
      art =>
    let w := worlds attempt
    if w.timeCapHit then ⟨.escTimeCap, writeEscalation art⟩
    else
      let repairResult := runRepairActions failures policy
        deterministicOnly env cwd w
      let patchLines := computePatchLines w.preDiff w.postDiff
      if (patchLines : Int) > policy.maxPatchLines then
        ⟨.escPatchBudget attempt patchLines, writeEscalation art⟩
      else if repairResult.shortCircuitPass then
        ⟨.passReport (attempts ++
          [{ attempt := attempt, patch_lines := patchLines,
             before_findings := previousCount, after_findings := 0,
             improved := true, worsened := false, status := "pass",
             actions := repairResult.attempted }]),
         writeRepairReport art⟩
      else
        let failures' := w.rerunDoc
        let currentCount := failures'.findings.length
        let improved := currentCount < previousCount
        let worsened := currentCount > previousCount
        let attempts' := attempts ++
          [{ attempt := attempt, patch_lines := patchLines,
             before_findings := previousCount,
             after_findings := currentCount, improved := improved,
             worsened := worsened, status := failures'.status,
             actions := repairResult.attempted }]
        if failures'.status = "pass" then
          ⟨.passReport attempts', writeRepairReport art⟩
        else
          let noImprovement' := if improved then 0 else noImprovement + 1
          if (noImprovement' : Int) ≥ policy.abortOnNoImprovement then
            ⟨.escNoImprovement attempts', writeEscalation art⟩
          else
            repairLoop policy deterministicOnly env cwd worlds r
              (attempt + 1) failures' currentCount noImprovement'
              attempts' art

/-- `executeRepair({input, maxAttempts, deterministicOnly, cwd})`:
compute the policy, read the input report, run the loop. -/
def executeRepair (inputDoc : FailuresDoc) (cliMaxAttempts : Option Int)
    (deterministicOnly : Bool) (userConfig : Option UserConfig)
    (env : EnvVars) (cwd : String) (worlds : Nat → AttemptWorld)
    (art : ArtifactFS) : RepairResult :=
  let config := loadConfig userConfig
  let policy := mkRepairPolicy cliMaxAttempts config
  repairLoop policy deterministicOnly env cwd worlds
    policy.maxAttempts.toNat 1 inputDoc inputDoc.findings.length 0 [] art

/-! ## Spec-side formulas and auxiliary measures -/

/-- The spec's predicted-size formula for an edit plan: the sum over edits
of `(end_line − start_line + 1)` plus the line count of the replacement
(to be compared with `scoreEditPlan`'s clamped accumulation). -/
def specPredictedLines (edits : List Edit) : Int :=
  edits.foldl (fun acc e =>
    acc + (e.end_line - e.start_line + 1) +
      ((jsSplitLines e.replacement).length : Int)) 0

/-- Length of the maximal suffix of an attempts log whose records all have
`improved = false`. -/
def trailingNoImprove (l : List AttemptRecord) : Nat :=
  (l.reverse.takeWhile (fun r => !r.improved)).length

def isPassOutcome : RepairOutcome → Bool
  | .passReport _ => true
  | _ => false

/-! ## Sample inputs used by witness theorems -/

def sampleScripts : List (String × String) :=
  [("lint", "lint"), ("typecheck", "tc"), ("build", "b"),
   ("lighthouse", "lh")]

def sampleRunOut : RunOutput :=
  { status := "pass",
    payload :=
      { run_id := "rid", mode := "canary", status := "pass",
        timestamp := "ts",
        gates := [⟨"lint", "pass", 0⟩, ⟨"typecheck", "pass", 0⟩,
                  ⟨"build", "skipped", 0⟩, ⟨"lighthouse", "pass", 0⟩] } }

def sampleFailures : FailuresDoc :=
  { changed_files := ["a.txt"],
    findings := [{ id := "lint_1", gate := "lint", files := ["a.txt"] }] }

def sampleModelPolicy : ModelPolicy :=
  { hintModel := "qwen2.5:1.5b", patchModel := "mistral:7b",
    hintOnly := ["qwen2.5:1.5b", "qwen3:4b", "llama3.2:latest"],
    allowHintOnlyPatch := false, timeoutMs := 60000 }

def samplePatchCall : PatchCall :=
  .ok "out" (some
    { summary := "s",
      edits := some [{ file := "a.txt", start_line := some 1,
                       end_line := some 1, replacement := "z" }] })

def sampleTree : FS := [("/w/a.txt", "x\ny")]

def sampleLighthouseDoc : FailuresDoc :=
  { findings := [{ id := "lh_1", gate := "lighthouse" }] }

def sampleWorld : AttemptWorld := { rerunDoc := sampleLighthouseDoc }

/-- The attempt records produced by running the sample non-improving loop
(deterministic-only mode against a lighthouse-only failure). -/
def sampleStalledAttempt (n : Nat) : AttemptRecord :=
  { attempt := n, patch_lines := 0, before_findings := 1,
    after_findings := 1, improved := false, worsened := false,
    status := "fail", actions := [.deterministicOnlyMode] }

/-- A two-file CRLF working tree and a three-edit plan touching both
files (one of them twice), used by the C9 witness. -/
def sampleCrlfTree : FS :=
  [("/w/a.txt", "a\r\nb\r\nc"), ("/w/b.txt", "x\r\ny")]

def sampleCrlfPlan : EditPlan :=
  { summary := "crlf",
    edits := [⟨"a.txt", 2, 2, "B"⟩, ⟨"b.txt", 1, 1, "X\r\nZ"⟩,
              ⟨"a.txt", 1, 1, ""⟩] }

def sampleZeroPolicyConfig : UserConfig :=
  { policy := some { maxAttempts := some 0, maxPatchLines := some 0,
                     abortOnNoImprovement := some 0, timeCapMs := some 0 } }

/-! ## Theorems -/

/-- C1: for every gate run performed by `executeRun`, the written failures
report has `status = "pass"` iff its findings list is empty, for every
mode, changed-files list, configuration and oracle behaviour. -/
theorem executeRun_status_pass_iff_findings_empty (mode : String)
    (changedFiles : List String) (cfg : GateConfig)
    (manifest : ManifestState) (artifact : ArtifactState)
    (exec : String → CmdResult) (now : Nat) (runId timestamp : String)
    (gitRepo gitBranch : Option String) (schemaOK : FailuresDoc → Bool)
    (out : RunOutput)
    (h : executeRun mode changedFiles cfg manifest artifact exec now runId
      timestamp gitRepo gitBranch schemaOK = .ok out) :
    out.payload.status = "pass" ↔ out.payload.findings = [] := by
  cases hg : runDeterministicGates mode cfg changedFiles manifest artifact
      exec now with
  | error e => simp [executeRun, hg] at h
  | ok gateResult =>
    simp only [executeRun, hg] at h
    split at h
    · next hlen =>
      split at h
      · simp at h
      · injection h with h
        subst h
        constructor
        · intro hs
          have hs' : ("fail" : String) = "pass" := hs
          exact absurd hs' (by decide)
        · intro hnil
          have hnil' : gateResult.findings = [] := hnil
          simp [hnil'] at hlen
    · next hlen =>
      split at h
      · simp at h
      · injection h with h
        subst h
        have hnil : gateResult.findings = [] := by
          cases hfind : gateResult.findings with
          | nil => rfl
          | cons a l => rw [hfind] at hlen; simp at hlen
        exact ⟨fun _ => hnil, fun _ => rfl⟩

/-- Witness for C1 at a concrete passing run. -/
theorem executeRun_status_pass_iff_findings_empty_witness :
    sampleRunOut.payload.status = "pass" ↔
      sampleRunOut.payload.findings = [] :=
  executeRun_status_pass_iff_findings_empty "canary" [] {}
    (.pkg sampleScripts) .absent (fun _ => {}) 0 "rid" "ts" none none
    (fun _ => true) sampleRunOut rfl

/-- C10 theorem: each repair-policy field is computed as
`Number(value || default)`, so a configured `0` for any of the four policy
fields is replaced by the built-in default (and, with no CLI override, an
explicit `0` for `maxAttempts` as well). -/
theorem repairPolicy_zero_config_replaced_by_default (uc : UserConfig)
    (cli : Option Int)
    (h : uc.policy = some
      { maxAttempts := some 0, maxPatchLines := some 0,
        abortOnNoImprovement := some 0, timeCapMs := some 0 }) :
    (mkRepairPolicy cli (loadConfig (some uc))).maxPatchLines =
        DEFAULT_POLICY.maxPatchLines ∧
      (mkRepairPolicy cli (loadConfig (some uc))).abortOnNoImprovement =
        DEFAULT_POLICY.abortOnNoImprovement ∧
      (mkRepairPolicy cli (loadConfig (some uc))).timeCapMs =
        DEFAULT_POLICY.timeCapMs ∧
      (mkRepairPolicy none (loadConfig (some uc))).maxAttempts =
        DEFAULT_POLICY.maxAttempts := by
  simp [mkRepairPolicy, loadConfig, mergePolicy, h, jsOrI, DEFAULT_POLICY]

/-- Witness for C10 at a concrete all-zero configured policy. -/
theorem repairPolicy_zero_config_replaced_by_default_witness :
    (mkRepairPolicy (some 5)
        (loadConfig (some sampleZeroPolicyConfig))).maxPatchLines =
      DEFAULT_POLICY.maxPatchLines ∧
    (mkRepairPolicy (some 5)
        (loadConfig (some sampleZeroPolicyConfig))).abortOnNoImprovement =
      DEFAULT_POLICY.abortOnNoImprovement ∧
    (mkRepairPolicy (some 5)
        (loadConfig (some sampleZeroPolicyConfig))).timeCapMs =
      DEFAULT_POLICY.timeCapMs ∧
    (mkRepairPolicy none
        (loadConfig (some sampleZeroPolicyConfig))).maxAttempts =
      DEFAULT_POLICY.maxAttempts :=
  repairPolicy_zero_config_replaced_by_default sampleZeroPolicyConfig
    (some 5) (by decide)

/-- C7 counterexample: a failing assertion whose url cannot be parsed as a
URL yields the raw string as route, not `"/"` as the claim states. -/
theorem lighthouse_route_unparsable_counterexample :
    (parseLighthouseFindings
        (.rows [{ passed := false, url := .unparsable "not-a-url" }])
        []).map (fun l => l.map (·.route)) =
      .ok [some "not-a-url"] ∧ "not-a-url" ≠ "/" :=
  ⟨rfl, by decide⟩

/-- C7 amended: for every failing assertion record, the finding's route is
`routePath` of its url — the pathname with query stripped when the url
parses (or `"/"` for an empty pathname), `"/"` when the url is absent, and
the raw url string (not `"/"`) when `new URL` throws. -/
theorem lighthouse_finding_route (row : AssertionRow)
    (thresholds : List (String × ℚ)) (hfail : row.passed = false) :
    (mkLhFinding row thresholds).map (·.route) =
        some (some (routePath row.url)) ∧
      (row.url = .missing → routePath row.url = "/") ∧
      (∀ raw p, row.url = .parsed raw p →
        routePath row.url = if p = "" then "/" else p) ∧
      (∀ raw, row.url = .unparsable raw → routePath row.url = raw) := by
  refine ⟨?_, ?_, ?_, ?_⟩
  · simp [mkLhFinding, hfail]
  · intro h; simp [h, routePath]
  · intro raw p h; simp [h, routePath]
  · intro raw h; simp [h, routePath]

/-- Witness for the amended C7 at a concrete failing record. -/
theorem lighthouse_finding_route_witness :
    (mkLhFinding { passed := false, url := .unparsable "not-a-url" }
        []).map (·.route) =
      some (some (routePath (.unparsable "not-a-url"))) ∧
    ((UrlField.unparsable "not-a-url") = .missing →
      routePath (.unparsable "not-a-url") = "/") ∧
    (∀ raw p, (UrlField.unparsable "not-a-url") = .parsed raw p →
      routePath (.unparsable "not-a-url") = if p = "" then "/" else p) ∧
    (∀ raw, (UrlField.unparsable "not-a-url") = .unparsable raw →
      routePath (.unparsable "not-a-url") = raw) :=
  lighthouse_finding_route
    { passed := false, url := .unparsable "not-a-url" } [] (by decide)

/-- C5 counterexample: `runDeterministicGates` also throws when
`package.json` is present but `JSON.parse` fails on its content, so a
missing manifest is not the only throwing condition. -/
theorem gates_throw_on_unreadable_manifest :
    runDeterministicGates "canary" {} [] .unreadable .absent
        (fun _ => {}) 0 = .error .manifestUnreadable ∧
      ManifestState.unreadable ≠ ManifestState.missing := by
  exact ⟨rfl, by decide⟩

/-- The extractor only throws on an unreadable artifact. -/
theorem parseLighthouseFindings_isOk (artifact : ArtifactState)
    (thresholds : List (String × ℚ)) (h : artifact ≠ .unreadable) :
    (parseLighthouseFindings artifact thresholds).isOk = true := by
  cases artifact with
  | absent => rfl
  | unreadable => exact absurd rfl h
  | rows rs => rfl

/-- The per-gate loop never fails once the manifest is parsed and the
artifact is readable, whatever the command results are. -/
theorem runGatesGo_isOk (cfg : GateConfig)
    (scripts : List (String × String)) (changedFiles : List String)
    (artifact : ArtifactState) (exec : String → CmdResult) (now : Nat)
    (h : artifact ≠ .unreadable) :
    ∀ (plan : List (String × Bool)) (gates : List GateEntry)
      (findings : List Finding) (traces : List CmdResult),
      (runGatesGo cfg scripts changedFiles artifact exec now plan gates
        findings traces).isOk = true := by
  intro plan
  induction plan with
  | nil => intro gates findings traces; rfl
  | cons hd tl ih =>
    intro gates findings traces
    obtain ⟨name, enabled⟩ := hd
    simp only [runGatesGo]
    repeat' split
    all_goals try exact ih _ _ _
    all_goals
      exfalso
      cases artifact with
      | absent => simp_all [parseLighthouseFindings]
      | unreadable => exact h rfl
      | rows rs => simp_all [parseLighthouseFindings]

/-- C5 amended: `runDeterministicGates` never throws on non-zero gate
exits — for a parsed manifest it returns a result for every mode,
configuration, changed-files list and command outcome, as long as the
assertion-results artifact (read only after a failing lighthouse gate) is
readable; it throws exactly when `package.json` is missing (its own
error) or when `JSON.parse` fails on `package.json` or on a present
assertion-results artifact. -/
theorem gates_throw_only_on_unreadable_inputs (mode : String)
    (cfg : GateConfig) (changedFiles : List String)
    (scripts : List (String × String)) (artifact : ArtifactState)
    (exec : String → CmdResult) (now : Nat)
    (h : artifact ≠ .unreadable) :
    (runDeterministicGates mode cfg changedFiles (.pkg scripts) artifact
        exec now).isOk = true ∧
      runDeterministicGates mode cfg changedFiles .missing artifact exec
        now = .error .noPackageJson ∧
      runDeterministicGates mode cfg changedFiles .unreadable artifact
        exec now = .error .manifestUnreadable :=
  ⟨runGatesGo_isOk cfg scripts changedFiles artifact exec now h _ _ _ _,
   rfl, rfl⟩

/-- Witness for the amended C5 at a concrete failing-command run. -/
theorem gates_throw_only_on_unreadable_inputs_witness :
    (runDeterministicGates "full" {} [] (.pkg [])
        (.rows [{ passed := false }])
        (fun c => { command := c, exit_code := 1 }) 7).isOk = true ∧
      runDeterministicGates "full" {} [] .missing
        (.rows [{ passed := false }])
        (fun c => { command := c, exit_code := 1 }) 7 =
        .error .noPackageJson ∧
      runDeterministicGates "full" {} [] .unreadable
        (.rows [{ passed := false }])
        (fun c => { command := c, exit_code := 1 }) 7 =
        .error .manifestUnreadable :=
  gates_throw_only_on_unreadable_inputs "full" {} [] []
    (.rows [{ passed := false }]) (fun c => { command := c, exit_code := 1 })
    7 (by decide)

/-- C6 counterexample: an edit with `start_line = end_line` and an empty
replacement does not delete the line — `''.split(/\r?\n/)` is `[""]`, so
the line is replaced by an empty line and the line count is unchanged. -/
theorem applyEditPlan_empty_replacement_counterexample :
    applyEditPlan "" ⟨"", [⟨"f.txt", 2, 2, ""⟩]⟩ [("/f.txt", "a\nb\nc")] =
        (.ok ["f.txt"], [("/f.txt", "a\n\nc")]) ∧
      (jsSplitLines "a\n\nc").length = (jsSplitLines "a\nb\nc").length := by
  decide

/-- A successful single-edit apply splices the replacement lines over the
inclusive line range and rejoins with LF. -/
theorem applyEditPlan_single_edit (cwd file repl content : String)
    (s t : Nat) (fs : FS)
    (hread : fsRead fs (pathJoin cwd file) = some content)
    (hs : 1 ≤ s) (hst : s ≤ t) (hle : t ≤ (jsSplitLines content).length) :
    applyEditPlan cwd ⟨"", [⟨file, (s : Int), (t : Int), repl⟩]⟩ fs =
      (.ok [file], fsWrite fs (pathJoin cwd file)
        (joinLF ((jsSplitLines content).take (s - 1) ++
          jsSplitLines repl ++ (jsSplitLines content).drop t))) := by
  have hc : ¬(((s : Int) - 1) < 0 ∨
      ((t : Int)) > ((jsSplitLines content).length : Int) ∨
      ((s : Int) - 1) ≥ ((t : Int))) := by
    omega
  have ht1 : ((s : Int) - 1).toNat = s - 1 := by omega
  have ht2 : ((t : Int)).toNat = t := by omega
  simp only [applyEditPlan, applyEditPlanGo, applyOneEdit, hread]
  rw [if_neg hc, ht1, ht2]
  simp [pushUnique]

/-- C6 amended: an edit with `start_line = end_line = s` on a valid line
replaces exactly line `s` by the replacement's split lines; with an empty
replacement the line becomes a single empty line (since
`''.split(/\r?\n/) = ['']`) and the line count is unchanged, not reduced
by one. -/
theorem applyEditPlan_single_line_replacement (cwd file repl content :
    String) (s : Nat) (fs : FS)
    (hread : fsRead fs (pathJoin cwd file) = some content)
    (hs : 1 ≤ s) (hle : s ≤ (jsSplitLines content).length) :
    applyEditPlan cwd ⟨"", [⟨file, (s : Int), (s : Int), repl⟩]⟩ fs =
      (.ok [file], fsWrite fs (pathJoin cwd file)
        (joinLF ((jsSplitLines content).take (s - 1) ++
          jsSplitLines repl ++ (jsSplitLines content).drop s))) ∧
      (repl = "" →
        jsSplitLines repl = [""] ∧
        ((jsSplitLines content).take (s - 1) ++ jsSplitLines repl ++
          (jsSplitLines content).drop s).length =
          (jsSplitLines content).length) := by
  refine ⟨applyEditPlan_single_edit cwd file repl content s s fs hread hs
    le_rfl hle, ?_⟩
  intro hrepl
  subst hrepl
  refine ⟨rfl, ?_⟩
  simp only [List.length_append, List.length_take, List.length_drop]
  have : jsSplitLines "" = [""] := rfl
  rw [this]
  simp only [List.length_singleton]
  omega

/-- Witness for the amended C6: replacing line 2 of a three-line file with
an empty replacement leaves three lines, the middle one empty. -/
theorem applyEditPlan_single_line_replacement_witness :
    (applyEditPlan "" ⟨"", [⟨"f.txt", (2 : Int), (2 : Int), ""⟩]⟩
        [("/f.txt", "a\nb\nc")] =
      (.ok ["f.txt"], fsWrite [("/f.txt", "a\nb\nc")] (pathJoin "" "f.txt")
        (joinLF ((jsSplitLines "a\nb\nc").take 1 ++ jsSplitLines "" ++
          (jsSplitLines "a\nb\nc").drop 2)))) ∧
      ("" = "" →
        jsSplitLines "" = [""] ∧
        ((jsSplitLines "a\nb\nc").take 1 ++ jsSplitLines "" ++
          (jsSplitLines "a\nb\nc").drop 2).length =
          (jsSplitLines "a\nb\nc").length) :=
  applyEditPlan_single_line_replacement "" "f.txt" "" "a\nb\nc" 2
    [("/f.txt", "a\nb\nc")] (by decide) (by decide) (by decide)

/-- Reduction: a character that is neither separator extends the current
first piece. -/
theorem splitLinesChars_other (c : Char) (rest : List Char)
    (hn : c ≠ '\n') (hr : c ≠ '\r') :
    splitLinesChars (c :: rest) = consHead c (splitLinesChars rest) := by
  rw [splitLinesChars.eq_def]
  split
  · rename_i heq; exact absurd heq (by simp)
  · rename_i rest1 heq
    rw [List.cons.injEq] at heq
    exact absurd heq.1 hr
  · rename_i heq
    rw [List.cons.injEq] at heq
    exact absurd heq.1 hn
  · rename_i c2 rest2 hne1 hne2 heq
    rw [List.cons.injEq] at heq
    rw [heq.1, heq.2]

/-- Reduction: a carriage return not followed by a newline is content. -/
theorem splitLinesChars_cr_content (d : Char) (r2 : List Char)
    (hd : d ≠ '\n') :
    splitLinesChars ('\r' :: d :: r2) =
      consHead '\r' (splitLinesChars (d :: r2)) := by
  rw [splitLinesChars.eq_def]
  split
  · rename_i heq; exact absurd heq (by simp)
  · rename_i rest1 heq
    rw [List.cons.injEq, List.cons.injEq] at heq
    exact absurd heq.2.1 hd
  · rename_i heq
    rw [List.cons.injEq] at heq
    exact absurd heq.1 (by decide)
  · rename_i c2 rest2 hne1 hne2 heq
    rw [List.cons.injEq] at heq
    rw [heq.1, heq.2]

/-- Splitting a CRLF-well-formed character list on `/\r?\n/` yields pieces
free of carriage returns. -/
theorem splitLinesChars_no_cr (l : List Char) (h : crlfOnly l = true) :
    ∀ p ∈ splitLinesChars l, '\r' ∉ p := by
  induction l using splitLinesChars.induct with
  | case1 =>
    intro p hp
    simp only [splitLinesChars, List.mem_singleton] at hp
    simp [hp]
  | case2 rest ih =>
    intro p hp
    have hrest : crlfOnly rest = true := by simpa [crlfOnly] using h
    simp only [splitLinesChars, List.mem_cons] at hp
    rcases hp with hp | hp
    · simp [hp]
    · exact ih hrest p hp
  | case3 rest ih =>
    intro p hp
    have hrest : crlfOnly rest = true := by
      cases rest with
      | nil => rfl
      | cons d r2 => simpa [crlfOnly] using h
    simp only [splitLinesChars, List.mem_cons] at hp
    rcases hp with hp | hp
    · simp [hp]
    · exact ih hrest p hp
  | case4 c rest hne1 hne2 ih =>
    intro p hp
    have hcr : c ≠ '\r' := by
      intro hceq
      subst hceq
      cases rest with
      | nil => simp [crlfOnly] at h
      | cons d r2 =>
        have hd : d ≠ '\n' := fun hdeq => hne1 r2 rfl (by rw [hdeq])
        simp [crlfOnly, hd] at h
    have hn : c ≠ '\n' := fun hceq => hne2 hceq
    have hrest : crlfOnly rest = true := by
      cases rest with
      | nil => rfl
      | cons d r2 => simpa [crlfOnly, hcr] using h
    rw [splitLinesChars_other c rest hn hcr] at hp
    rcases hsp : splitLinesChars rest with _ | ⟨hd, tl⟩
    · rw [hsp] at hp
      simp only [consHead, List.mem_singleton] at hp
      subst hp
      intro hmem
      rcases List.mem_cons.mp hmem with hmem | hmem
      · exact hcr hmem.symm
      · simp at hmem
    · rw [hsp] at hp
      simp only [consHead, List.mem_cons] at hp
      rcases hp with hp | hp
      · subst hp
        intro hmem
        rcases List.mem_cons.mp hmem with hmem | hmem
        · exact hcr hmem.symm
        · exact ih hrest hd (by rw [hsp]; exact List.mem_cons_self _ _)
            hmem
      · exact ih hrest p (by rw [hsp]; exact List.mem_cons_of_mem _ hp)

/-- Joining carriage-return-free lines with LF yields a carriage-return
free string. -/
theorem joinLF_no_cr (ls : List String) (h : ∀ x ∈ ls, '\r' ∉ x.data) :
    '\r' ∉ (joinLF ls).data := by
  induction ls with
  | nil => simp [joinLF]
  | cons hd tl ih =>
    cases tl with
    | nil => simpa [joinLF] using h hd (by simp)
    | cons b bt =>
      have hstep : joinLF (hd :: b :: bt) = hd ++ "\n" ++ joinLF (b :: bt) :=
        rfl
      rw [hstep, String.data_append, String.data_append]
      intro hmem
      rcases List.mem_append.mp hmem with hmem | hmem
      · rcases List.mem_append.mp hmem with hmem | hmem
        · exact h hd (by simp) hmem
        · simp at hmem
      · exact ih (fun x hx => h x (List.mem_cons_of_mem _ hx)) hmem

/-- Every line produced by `jsSplitLines` on CRLF-well-formed text is
carriage-return free. -/
theorem jsSplitLines_no_cr (str : String) (h : crlfOnly str.data = true) :
    ∀ x ∈ jsSplitLines str, '\r' ∉ x.data := by
  intro x hx
  simp only [jsSplitLines, List.mem_map] at hx
  obtain ⟨p, hp, hxp⟩ := hx
  subst hxp
  exact splitLinesChars_no_cr str.data h p hp

/-- Membership in the ordered set-insertion `pushUnique`. -/
theorem mem_pushUnique (l : List String) (a f : String) :
    f ∈ pushUnique l a ↔ f ∈ l ∨ f = a := by
  simp only [pushUnique]
  split
  · next ha =>
    constructor
    · exact Or.inl
    · rintro (h | h)
      · exact h
      · exact h ▸ ha
  · next _ =>
    simp [List.mem_append]

/-- `fsRead` on a cons cell. -/
theorem fsRead_cons (kv : String × String) (t : FS) (q : String) :
    fsRead (kv :: t) q = if kv.1 = q then some kv.2 else fsRead t q := by
  by_cases h : kv.1 = q
  · rw [if_pos h]
    simp only [fsRead]
    rw [List.find?_cons_of_pos _ (by simpa using h)]
    rfl
  · rw [if_neg h]
    simp only [fsRead]
    rw [List.find?_cons_of_neg _ (by simpa using h)]

/-- Reading a different key is unaffected by `fsWrite`'s in-place update. -/
theorem fsRead_mapUpdate_ne (p c q : String) (hne : q ≠ p) :
    ∀ fs : FS,
      fsRead (fs.map (fun kv => if kv.1 = p then (p, c) else kv)) q =
        fsRead fs q := by
  intro fs
  induction fs with
  | nil => rfl
  | cons kv t ih =>
    simp only [List.map_cons]
    by_cases hk : kv.1 = p
    · rw [if_pos hk, fsRead_cons, fsRead_cons,
        if_neg (fun h => hne h.symm),
        if_neg (fun h : kv.1 = q => hne (by rw [← h]; exact hk))]
      exact ih
    · rw [if_neg hk, fsRead_cons, fsRead_cons]
      by_cases hq : kv.1 = q
      · rw [if_pos hq, if_pos hq]
      · rw [if_neg hq, if_neg hq]
        exact ih

/-- Reading the written key after `fsWrite`'s in-place update. -/
theorem fsRead_mapUpdate_self (p c : String) :
    ∀ fs : FS, fs.any (fun kv => kv.1 = p) = true →
      fsRead (fs.map (fun kv => if kv.1 = p then (p, c) else kv)) p =
        some c := by
  intro fs
  induction fs with
  | nil => intro h; simp at h
  | cons kv t ih =>
    intro hany
    simp only [List.map_cons]
    by_cases hk : kv.1 = p
    · rw [if_pos hk, fsRead_cons]
      simp
    · rw [if_neg hk, fsRead_cons, if_neg hk]
      refine ih ?_
      simpa [List.any_cons, hk] using hany

/-- Reading a different key is unaffected by `fsWrite`'s append. -/
theorem fsRead_appendSingle_ne (p c q : String) (hne : q ≠ p) :
    ∀ fs : FS, fsRead (fs ++ [(p, c)]) q = fsRead fs q := by
  intro fs
  induction fs with
  | nil =>
    simp only [List.nil_append]
    rw [fsRead_cons, if_neg (fun h : p = q => hne h.symm)]
  | cons kv t ih =>
    simp only [List.cons_append]
    rw [fsRead_cons, fsRead_cons]
    by_cases hk : kv.1 = q
    · rw [if_pos hk, if_pos hk]
    · rw [if_neg hk, if_neg hk, ih]

/-- Reading the appended key when it was absent. -/
theorem fsRead_appendSingle_self_of_none (p c : String) :
    ∀ fs : FS, fsRead fs p = none → fsRead (fs ++ [(p, c)]) p = some c := by
  intro fs
  induction fs with
  | nil =>
    intro _
    simp only [List.nil_append]
    rw [fsRead_cons, if_pos rfl]
  | cons kv t ih =>
    intro hnone
    rw [fsRead_cons] at hnone
    simp only [List.cons_append]
    rw [fsRead_cons]
    by_cases hk : kv.1 = p
    · rw [if_pos hk] at hnone
      simp at hnone
    · rw [if_neg hk] at hnone
      rw [if_neg hk]
      exact ih hnone

/-- A key matching no entry reads as `none`. -/
theorem fsRead_eq_none_of_any_false (p : String) :
    ∀ fs : FS, fs.any (fun kv => kv.1 = p) = false → fsRead fs p = none := by
  intro fs
  induction fs with
  | nil => intro _; rfl
  | cons kv t ih =>
    intro hany
    simp only [List.any_cons, Bool.or_eq_false_iff, decide_eq_false_iff_not]
      at hany
    rw [fsRead_cons, if_neg hany.1]
    exact ih hany.2

/-- `fsWrite` then `fsRead` at the written path yields the new content. -/
theorem fsRead_fsWrite_self (fs : FS) (p c : String) :
    fsRead (fsWrite fs p c) p = some c := by
  simp only [fsWrite]
  split
  · next hany => exact fsRead_mapUpdate_self p c fs hany
  · next hany =>
    exact fsRead_appendSingle_self_of_none p c fs
      (fsRead_eq_none_of_any_false p fs
        (by simp only [Bool.not_eq_true] at hany; exact hany))

/-- `fsWrite` leaves every other path's content unchanged. -/
theorem fsRead_fsWrite_ne (fs : FS) (p c q : String) (hne : q ≠ p) :
    fsRead (fsWrite fs p c) q = fsRead fs q := by
  simp only [fsWrite]
  split
  · exact fsRead_mapUpdate_ne p c q hne fs
  · exact fsRead_appendSingle_ne p c q hne fs

/-- A character list without any carriage return is CRLF-well-formed. -/
theorem crlfOnly_of_no_cr : ∀ l : List Char, '\r' ∉ l → crlfOnly l = true
  | [], _ => rfl
  | [c], h => by
    have hc : ¬(c = '\r') := fun hceq => h (by simp [hceq])
    simp [crlfOnly, hc]
  | c :: d :: rest, h => by
    have hc : ¬(c = '\r') := fun hceq => h (by simp [hceq])
    have hrec : '\r' ∉ d :: rest := fun hm => h (List.mem_cons_of_mem _ hm)
    simp only [crlfOnly, if_neg hc]
    exact crlfOnly_of_no_cr (d :: rest) hrec

/-- A successful `applyOneEdit` read the file and wrote back exactly the
LF-joined splice of the replacement lines over the edit's range. -/
theorem applyOneEdit_splice (cwd : String) (fs : FS) (e : Edit) (fs1 : FS)
    (h : applyOneEdit cwd fs e = .ok fs1) :
    ∃ content, fsRead fs (pathJoin cwd e.file) = some content ∧
      fs1 = fsWrite fs (pathJoin cwd e.file) (spliceLines content e) := by
  simp only [applyOneEdit] at h
  split at h
  · exact absurd h (by simp)
  · next content hread =>
    split at h
    · exact absurd h (by simp)
    · next hcond =>
      injection h with h
      exact ⟨content, hread, h.symm⟩

/-- Splicing CRLF-well-formed replacement lines into CRLF-well-formed
content leaves no carriage return in the written text. -/
theorem spliceLines_no_cr (content : String) (e : Edit)
    (hc : crlfOnly content.data = true)
    (hr : crlfOnly e.replacement.data = true) :
    '\r' ∉ (spliceLines content e).data := by
  simp only [spliceLines]
  apply joinLF_no_cr
  intro x hx
  rcases List.mem_append.mp hx with hx | hx
  · rcases List.mem_append.mp hx with hx | hx
    · exact jsSplitLines_no_cr content hc x (List.take_subset _ _ hx)
    · exact jsSplitLines_no_cr e.replacement hr x hx
  · exact jsSplitLines_no_cr content hc x (List.drop_subset _ _ hx)

/-- Reduction of `specApplyPlan` when the head edit's file is present. -/
theorem specApplyPlan_cons_some (cwd : String) (fs : FS) (e : Edit)
    (rest : List Edit) (content : String)
    (h : fsRead fs (pathJoin cwd e.file) = some content) :
    specApplyPlan cwd fs (e :: rest) =
      specApplyPlan cwd
        (fsWrite fs (pathJoin cwd e.file) (spliceLines content e)) rest := by
  simp only [specApplyPlan, h]

/-- Main induction for the multi-edit apply loop: a successful run realizes
the sequential splice semantics, accumulates the touched list as ordered
set-insertions, leaves untouched paths unchanged, and every touched file
reads back carriage-return free (given CRLF-well-formed inputs). -/
theorem applyEditPlanGo_splice (cwd : String) :
    ∀ (edits : List Edit) (fs : FS) (touched touched2 : List String)
      (fs2 : FS),
      applyEditPlanGo cwd fs touched edits = (.ok touched2, fs2) →
      (∀ e ∈ edits, crlfOnly e.replacement.data = true) →
      (∀ e ∈ edits, ∀ c, fsRead fs (pathJoin cwd e.file) = some c →
        crlfOnly c.data = true) →
      (∀ f ∈ touched, ∃ c, fsRead fs (pathJoin cwd f) = some c ∧
        '\r' ∉ c.data) →
      fs2 = specApplyPlan cwd fs edits ∧
      touched2 = (edits.map (·.file)).foldl pushUnique touched ∧
      (∀ p, (∀ e ∈ edits, p ≠ pathJoin cwd e.file) →
        fsRead fs2 p = fsRead fs p) ∧
      (∀ f ∈ touched2, ∃ c, fsRead fs2 (pathJoin cwd f) = some c ∧
        '\r' ∉ c.data) := by
  intro edits
  induction edits with
  | nil =>
    intro fs touched touched2 fs2 happ hrepl hinit htouch
    simp only [applyEditPlanGo] at happ
    injection happ with h1 h2
    injection h1 with h1
    subst h1
    subst h2
    exact ⟨rfl, rfl, fun p _ => rfl, htouch⟩
  | cons e rest ih =>
    intro fs touched touched2 fs2 happ hrepl hinit htouch
    simp only [applyEditPlanGo] at happ
    split at happ
    · simp at happ
    · next fs1 hone =>
      obtain ⟨content, hread, hfs1⟩ := applyOneEdit_splice cwd fs e fs1 hone
      have hcontent : crlfOnly content.data = true :=
        hinit e (List.mem_cons_self _ _) content hread
      have hNew : '\r' ∉ (spliceLines content e).data :=
        spliceLines_no_cr content e hcontent
          (hrepl e (List.mem_cons_self _ _))
      have hrepl2 : ∀ e2 ∈ rest, crlfOnly e2.replacement.data = true :=
        fun e2 h2 => hrepl e2 (List.mem_cons_of_mem _ h2)
      have hinit2 : ∀ e2 ∈ rest, ∀ c,
          fsRead fs1 (pathJoin cwd e2.file) = some c →
          crlfOnly c.data = true := by
        intro e2 h2 c hc
        by_cases hp : pathJoin cwd e2.file = pathJoin cwd e.file
        · rw [hfs1, hp, fsRead_fsWrite_self] at hc
          injection hc with hc
          rw [← hc]
          exact crlfOnly_of_no_cr _ hNew
        · rw [hfs1, fsRead_fsWrite_ne _ _ _ _ hp] at hc
          exact hinit e2 (List.mem_cons_of_mem _ h2) c hc
      have htouch2 : ∀ f ∈ pushUnique touched e.file,
          ∃ c, fsRead fs1 (pathJoin cwd f) = some c ∧ '\r' ∉ c.data := by
        intro f hf
        rcases (mem_pushUnique touched e.file f).mp hf with hf | hf
        · by_cases hp : pathJoin cwd f = pathJoin cwd e.file
          · exact ⟨spliceLines content e,
              by rw [hfs1, hp, fsRead_fsWrite_self], hNew⟩
          · obtain ⟨c, hc, hcr⟩ := htouch f hf
            exact ⟨c,
              by rw [hfs1, fsRead_fsWrite_ne _ _ _ _ hp]; exact hc, hcr⟩
        · subst hf
          exact ⟨spliceLines content e,
            by rw [hfs1, fsRead_fsWrite_self], hNew⟩
      obtain ⟨ih1, ih2, ih3, ih4⟩ := ih fs1 (pushUnique touched e.file)
        touched2 fs2 happ hrepl2 hinit2 htouch2
      refine ⟨?_, ?_, ?_, ih4⟩
      · rw [ih1, hfs1]
        exact (specApplyPlan_cons_some cwd fs e rest content hread).symm
      · rw [ih2]
        simp only [List.map_cons, List.foldl_cons]
      · intro p hp
        have hpe : p ≠ pathJoin cwd e.file := hp e (List.mem_cons_self _ _)
        rw [ih3 p (fun e2 h2 => hp e2 (List.mem_cons_of_mem _ h2)), hfs1,
          fsRead_fsWrite_ne fs (pathJoin cwd e.file)
            (spliceLines content e) p hpe]

/-- C9: for any accepted edit plan — any number of edits over any number of
files — the apply loop realizes the sequential splice semantics: each edit
rewrites its file to the LF-join of the file's current split lines with the
replacement lines spliced over the edited range (lines outside the range
keep their text), the touched list is exactly the edits' files in first-use
order, paths not named by any edit are unchanged, and when every original
content and every replacement use only CRLF (or LF) line terminators, every
touched file reads back with no carriage return at all: every CRLF is
normalized to LF by the split-and-rejoin. -/
theorem applyEditPlan_lf_normalization (cwd : String) (plan : EditPlan)
    (fs fs2 : FS) (touched : List String)
    (happ : applyEditPlan cwd plan fs = (.ok touched, fs2))
    (hrepl : ∀ e ∈ plan.edits, crlfOnly e.replacement.data = true)
    (hinit : ∀ e ∈ plan.edits,
      ((fsRead fs (pathJoin cwd e.file)).all
        fun c => crlfOnly c.data) = true) :
    fs2 = specApplyPlan cwd fs plan.edits ∧
      touched = (plan.edits.map (·.file)).foldl pushUnique [] ∧
      (∀ p, (∀ e ∈ plan.edits, p ≠ pathJoin cwd e.file) →
        fsRead fs2 p = fsRead fs p) ∧
      (∀ f ∈ touched, ∃ c, fsRead fs2 (pathJoin cwd f) = some c ∧
        '\r' ∉ c.data) := by
  have hinit2 : ∀ e ∈ plan.edits, ∀ c,
      fsRead fs (pathJoin cwd e.file) = some c →
      crlfOnly c.data = true := by
    intro e he c hc
    have := hinit e he
    rw [hc] at this
    simpa [Option.all] using this
  exact applyEditPlanGo_splice cwd plan.edits fs [] touched fs2 happ hrepl
    hinit2 (by intro f hf; simp at hf)

/-- Witness for C9: a three-edit plan over two CRLF files (one file edited
twice) is applied as the sequential splice, touches both files in order,
and leaves both carriage-return free. -/
theorem applyEditPlan_lf_normalization_witness :
    ([("/w/a.txt", "\nB\nc"), ("/w/b.txt", "X\nZ\ny")] : FS) =
        specApplyPlan "/w" sampleCrlfTree sampleCrlfPlan.edits ∧
      ["a.txt", "b.txt"] =
        (sampleCrlfPlan.edits.map (·.file)).foldl pushUnique [] ∧
      (∀ p, (∀ e ∈ sampleCrlfPlan.edits, p ≠ pathJoin "/w" e.file) →
        fsRead [("/w/a.txt", "\nB\nc"), ("/w/b.txt", "X\nZ\ny")] p =
          fsRead sampleCrlfTree p) ∧
      (∀ f ∈ ["a.txt", "b.txt"],
        ∃ c, fsRead [("/w/a.txt", "\nB\nc"), ("/w/b.txt", "X\nZ\ny")]
          (pathJoin "/w" f) = some c ∧ '\r' ∉ c.data) :=
  applyEditPlan_lf_normalization "/w" sampleCrlfPlan sampleCrlfTree
    [("/w/a.txt", "\nB\nc"), ("/w/b.txt", "X\nZ\ny")] ["a.txt", "b.txt"]
    (by decide) (by decide) (by decide)

/-! ## Repair-loop lemmas and claims -/

theorem trailingNoImprove_append (l : List AttemptRecord)
    (r : AttemptRecord) :
    trailingNoImprove (l ++ [r]) =
      if r.improved then 0 else trailingNoImprove l + 1 := by
  simp only [trailingNoImprove, List.reverse_append, List.reverse_cons,
    List.reverse_nil, List.nil_append, List.singleton_append,
    List.takeWhile_cons]
  cases hr : r.improved <;> simp

theorem all_take_of_le_takeWhile {α : Type} (p : α → Bool) :
    ∀ (l : List α) (k : Nat), k ≤ (l.takeWhile p).length →
      ∀ x ∈ l.take k, p x = true := by
  intro l
  induction l with
  | nil => intro k hk x hx; simp at hx
  | cons a t ih =>
    intro k hk x hx
    cases k with
    | zero => simp at hx
    | succ k2 =>
      by_cases hpa : p a
      · rw [List.takeWhile_cons, if_pos hpa] at hk
        simp only [List.length_cons, Nat.succ_le_succ_iff] at hk
        rw [List.take_succ_cons] at hx
        rcases List.mem_cons.mp hx with hx | hx
        · rw [hx]; exact hpa
        · exact ih k2 hk x hx
      · rw [List.takeWhile_cons, if_neg hpa] at hk
        simp at hk


/-- Invariant: whenever the loop's `noImprovement` counter equals the
length of the trailing non-improving suffix of the attempts log, a
`NO_IMPROVEMENT` escalation carries a log whose trailing non-improving
suffix is at least `abortOnNoImprovement` long. -/
theorem repairLoop_noImprove_suffix (policy : Policy) (dOnly : Bool)
    (env : EnvVars) (cwd : String) (worlds : Nat → AttemptWorld) :
    ∀ (remaining attempt : Nat) (failures : FailuresDoc)
      (prev noImp : Nat) (attempts : List AttemptRecord)
      (art : ArtifactFS) (atts : List AttemptRecord),
      noImp = trailingNoImprove attempts →
      (repairLoop policy dOnly env cwd worlds remaining attempt failures
        prev noImp attempts art).outcome = .escNoImprovement atts →
      policy.abortOnNoImprovement ≤ (trailingNoImprove atts : Int) := by
  intro remaining
  induction remaining with
  | zero =>
    intro attempt failures prev noImp attempts art atts hinv hout
    simp [repairLoop] at hout
  | succ r ih =>
    intro attempt failures prev noImp attempts art atts hinv hout
    simp only [repairLoop] at hout
    split at hout
    · simp at hout
    · split at hout
      · simp at hout
      · split at hout
        · simp at hout
        · split at hout
          · simp at hout
          · split at hout
            · next himp =>
              split at hout
              · next hge =>
                simp only [RepairOutcome.escNoImprovement.injEq] at hout
                subst hout
                push_cast at hge
                omega
              · exact ih _ _ _ _ _ _ _
                  (by rw [trailingNoImprove_append]; simp [himp]) hout
            · next himp =>
              split at hout
              · next hge =>
                simp only [RepairOutcome.escNoImprovement.injEq] at hout
                subst hout
                rw [trailingNoImprove_append]
                simp [himp]
                rw [hinv] at hge
                push_cast at hge ⊢
                omega
              · exact ih _ _ _ _ _ _ _
                  (by rw [trailingNoImprove_append]; simp [himp, hinv])
                  hout

/-- C3: whenever `executeRepair` terminates with a `NO_IMPROVEMENT`
escalation, the last `abortOnNoImprovement` records of the attempts log it
carries all have `improved = false` — the counter is reset to zero by any
improving attempt and only reaches the threshold through that many
consecutive non-improving attempts. -/
theorem executeRepair_noImprovement_suffix (inputDoc : FailuresDoc)
    (cliMaxAttempts : Option Int) (dOnly : Bool) (uc : Option UserConfig)
    (env : EnvVars) (cwd : String) (worlds : Nat → AttemptWorld)
    (art : ArtifactFS) (atts : List AttemptRecord)
    (h : (executeRepair inputDoc cliMaxAttempts dOnly uc env cwd worlds
      art).outcome = .escNoImprovement atts) :
    ∀ rec ∈ atts.reverse.take
      (mkRepairPolicy cliMaxAttempts
        (loadConfig uc)).abortOnNoImprovement.toNat,
      rec.improved = false := by
  simp only [executeRepair] at h
  have hsuffix := repairLoop_noImprove_suffix
    (mkRepairPolicy cliMaxAttempts (loadConfig uc)) dOnly env cwd worlds
    (mkRepairPolicy cliMaxAttempts (loadConfig uc)).maxAttempts.toNat 1
    inputDoc inputDoc.findings.length 0 [] art atts rfl h
  intro rec hrec
  have hk : (mkRepairPolicy cliMaxAttempts
      (loadConfig uc)).abortOnNoImprovement.toNat ≤
      (atts.reverse.takeWhile (fun r => !r.improved)).length := by
    simp only [trailingNoImprove] at hsuffix
    omega
  have hall := all_take_of_le_takeWhile (fun r => !r.improved)
    atts.reverse _ hk rec hrec
  simpa using hall

/-- Witness for C3: a deterministic-only run against a persistent
lighthouse failure stalls for two attempts and escalates; the last record
is non-improving. -/
theorem executeRepair_noImprovement_suffix_witness :
    (sampleStalledAttempt 2).improved = false :=
  executeRepair_noImprovement_suffix sampleLighthouseDoc none true none {}
    "/w" (fun _ => sampleWorld) {}
    [sampleStalledAttempt 1, sampleStalledAttempt 2] (by decide)
    (sampleStalledAttempt 2) (by decide)

/-- Every path through the loop performs exactly one terminal artifact
write: `repair-report.json` on a passing outcome, `escalation.json`
otherwise. -/
theorem repairLoop_artifacts (policy : Policy) (dOnly : Bool)
    (env : EnvVars) (cwd : String) (worlds : Nat → AttemptWorld) :
    ∀ (remaining attempt : Nat) (failures : FailuresDoc)
      (prev noImp : Nat) (attempts : List AttemptRecord)
      (art : ArtifactFS),
      (repairLoop policy dOnly env cwd worlds remaining attempt failures
        prev noImp attempts art).artifacts =
        (if isPassOutcome (repairLoop policy dOnly env cwd worlds remaining
            attempt failures prev noImp attempts art).outcome
          then writeRepairReport art else writeEscalation art) := by
  intro remaining
  induction remaining with
  | zero =>
    intro attempt failures prev noImp attempts art
    simp [repairLoop, isPassOutcome]
  | succ r ih =>
    intro attempt failures prev noImp attempts art
    simp only [repairLoop]
    split
    · simp [isPassOutcome]
    · split
      · simp [isPassOutcome]
      · split
        · simp [isPassOutcome]
        · split
          · simp [isPassOutcome]
          · split
            · split
              · simp [isPassOutcome]
              · exact ih _ _ _ _ _ _
            · split
              · simp [isPassOutcome]
              · exact ih _ _ _ _ _ _

/-- C4 counterexample: artifacts from a previous invocation are never
removed, so an invocation that ends passing while a stale
`escalation.json` exists leaves both artifacts present at return — the
claim that exactly one of the two files exists is false. -/
theorem executeRepair_both_artifacts_counterexample :
    ((executeRepair {} none false none {} "/w" (fun _ => sampleWorld)
        { hasRepairReport := false, hasEscalation := true,
          writes := 1 }).artifacts.hasRepairReport = true) ∧
      ((executeRepair {} none false none {} "/w" (fun _ => sampleWorld)
        { hasRepairReport := false, hasEscalation := true,
          writes := 1 }).artifacts.hasEscalation = true) := by
  exact ⟨by decide, by decide⟩

/-- C4 amended: every return path of `executeRepair` performs exactly one
terminal artifact write — `repair-report.json` iff the outcome is a
passing repair report, `escalation.json` iff it is an escalation — so
when neither artifact exists at entry, exactly one exists at return. -/
theorem executeRepair_exactly_one_artifact (inputDoc : FailuresDoc)
    (cliMaxAttempts : Option Int) (dOnly : Bool) (uc : Option UserConfig)
    (env : EnvVars) (cwd : String) (worlds : Nat → AttemptWorld) :
    ((executeRepair inputDoc cliMaxAttempts dOnly uc env cwd worlds
        {}).artifacts.writes = 1) ∧
      ((executeRepair inputDoc cliMaxAttempts dOnly uc env cwd worlds
        {}).artifacts.hasRepairReport =
        isPassOutcome (executeRepair inputDoc cliMaxAttempts dOnly uc env
          cwd worlds {}).outcome) ∧
      ((executeRepair inputDoc cliMaxAttempts dOnly uc env cwd worlds
        {}).artifacts.hasEscalation =
        !isPassOutcome (executeRepair inputDoc cliMaxAttempts dOnly uc env
          cwd worlds {}).outcome) ∧
      ((executeRepair inputDoc cliMaxAttempts dOnly uc env cwd worlds
        {}).artifacts.hasRepairReport ≠
        (executeRepair inputDoc cliMaxAttempts dOnly uc env cwd worlds
        {}).artifacts.hasEscalation) := by
  have hart := repairLoop_artifacts
    (mkRepairPolicy cliMaxAttempts (loadConfig uc)) dOnly env cwd worlds
    (mkRepairPolicy cliMaxAttempts (loadConfig uc)).maxAttempts.toNat 1
    inputDoc inputDoc.findings.length 0 [] {}
  simp only [executeRepair]
  rw [hart]
  cases hp : isPassOutcome (repairLoop
      (mkRepairPolicy cliMaxAttempts (loadConfig uc)) dOnly env cwd worlds
      (mkRepairPolicy cliMaxAttempts (loadConfig uc)).maxAttempts.toNat 1
      inputDoc inputDoc.findings.length 0 [] {}).outcome <;>
    simp [writeRepairReport, writeEscalation]

/-- With an empty findings list, `runRepairActions` performs no action and
reports a short-circuit pass. -/
theorem runRepairActions_empty_findings (failures : FailuresDoc)
    (policy : Policy) (dOnly : Bool) (env : EnvVars) (cwd : String)
    (w : AttemptWorld) (h : failures.findings = []) :
    runRepairActions failures policy dOnly env cwd w =
      { attempted := [], currentFailures := failures,
        shortCircuitPass := true } := by
  have hdet : runDeterministicPreFix failures w.exec = [] := by
    simp [runDeterministicPreFix, hasGateFailure, h]
  simp [runRepairActions, hdet, h]

/-- C8: when the failures report handed to `executeRepair` already has
zero findings, the loop terminates on the first attempt with a passing
repair report containing exactly one attempt record with
`after_findings = 0` and `improved = true` and an empty actions list —
the hint and patch adapters are never invoked, because the short-circuit
branch fires whenever the current findings list is empty, not only after
the deterministic pre-fixer acted. -/
theorem executeRepair_empty_findings_short_circuit (inputDoc : FailuresDoc)
    (cliMaxAttempts : Option Int) (dOnly : Bool) (uc : Option UserConfig)
    (env : EnvVars) (cwd : String) (worlds : Nat → AttemptWorld)
    (art : ArtifactFS)
    (hempty : inputDoc.findings = [])
    (htime : (worlds 1).timeCapHit = false)
    (hbudget : ((computePatchLines (worlds 1).preDiff
      (worlds 1).postDiff : Nat) : Int) ≤
      (mkRepairPolicy cliMaxAttempts (loadConfig uc)).maxPatchLines)
    (hmax : 1 ≤ (mkRepairPolicy cliMaxAttempts
      (loadConfig uc)).maxAttempts) :
    (executeRepair inputDoc cliMaxAttempts dOnly uc env cwd worlds
        art).outcome =
      .passReport
        [{ attempt := 1,
           patch_lines := computePatchLines (worlds 1).preDiff
             (worlds 1).postDiff,
           before_findings := 0, after_findings := 0, improved := true,
           worsened := false, status := "pass", actions := [] }] := by
  simp only [executeRepair]
  obtain ⟨n, hn⟩ : ∃ n,
      (mkRepairPolicy cliMaxAttempts
        (loadConfig uc)).maxAttempts.toNat = n + 1 := by
    have hpos : 0 < (mkRepairPolicy cliMaxAttempts
        (loadConfig uc)).maxAttempts.toNat := by omega
    exact ⟨_, (Nat.succ_pred_eq_of_pos hpos).symm⟩
  rw [hn]
  simp only [repairLoop, htime,
    runRepairActions_empty_findings inputDoc _ dOnly env cwd (worlds 1)
      hempty]
  rw [if_neg (not_lt.mpr hbudget)]
  simp [hempty]

/-- Witness for C8 at a concrete already-passing report. -/
theorem executeRepair_empty_findings_short_circuit_witness :
    (executeRepair {} none false none {} "/w" (fun _ => sampleWorld)
        {}).outcome =
      .passReport
        [{ attempt := 1,
           patch_lines := computePatchLines (sampleWorld).preDiff
             (sampleWorld).postDiff,
           before_findings := 0, after_findings := 0, improved := true,
           worsened := false, status := "pass", actions := [] }] :=
  executeRepair_empty_findings_short_circuit {} none false none {} "/w"
    (fun _ => sampleWorld) {} (by decide) (by decide) (by decide)
    (by decide)

/-- A successfully applied edit has a valid range: `1 ≤ start_line` and
`start_line ≤ end_line`. -/
theorem applyOneEdit_ranges (cwd : String) (fs : FS) (e : Edit) (fs2 : FS)
    (h : applyOneEdit cwd fs e = .ok fs2) :
    1 ≤ e.start_line ∧ e.start_line ≤ e.end_line := by
  simp only [applyOneEdit] at h
  split at h
  · simp at h
  · split at h
    · simp at h
    · next hcond =>
      exact ⟨by omega, by omega⟩

/-- Every edit of a successfully applied plan tail has a valid range. -/
theorem applyEditPlanGo_ranges (cwd : String) :
    ∀ (edits : List Edit) (fs : FS) (touched touched2 : List String)
      (fs2 : FS),
      applyEditPlanGo cwd fs touched edits = (.ok touched2, fs2) →
      ∀ e ∈ edits, 1 ≤ e.start_line ∧ e.start_line ≤ e.end_line := by
  intro edits
  induction edits with
  | nil => intro fs t t2 fs2 h e he; simp at he
  | cons a rest ih =>
    intro fs t t2 fs2 h e he
    simp only [applyEditPlanGo] at h
    cases hone : applyOneEdit cwd fs a with
    | error r => rw [hone] at h; simp at h
    | ok fs1 =>
      rw [hone] at h
      rcases List.mem_cons.mp he with he | he
      · subst he
        exact applyOneEdit_ranges cwd fs e fs1 hone
      · exact ih fs1 _ t2 fs2 h e he

/-- Two fold steps that agree on the list's members give equal folds. -/
theorem foldl_congr_mem {α β : Type} :
    ∀ (l : List α) (f g : β → α → β),
      (∀ b, ∀ x ∈ l, f b x = g b x) →
      ∀ init, l.foldl f init = l.foldl g init := by
  intro l
  induction l with
  | nil => intro f g hfg init; rfl
  | cons a t ih =>
    intro f g hfg init
    simp only [List.foldl_cons]
    rw [hfg init a (List.mem_cons_self _ _)]
    exact ih f g (fun b x hx => hfg b x (List.mem_cons_of_mem _ hx)) _

/-- On a plan whose edits all have valid ranges, the spec's predicted-size
formula coincides with `scoreEditPlan`'s clamped accumulation. -/
theorem specPredictedLines_eq_scoreEditPlan (failures : FailuresDoc)
    (maxPatchLines : Int) (edits : List Edit)
    (hr : ∀ e ∈ edits, 1 ≤ e.start_line ∧ e.start_line ≤ e.end_line) :
    specPredictedLines edits =
      (scoreEditPlan edits failures maxPatchLines).predictedLines := by
  simp only [specPredictedLines, scoreEditPlan]
  apply foldl_congr_mem edits _ _
  intro b x hx
  have := hr x hx
  have hmax : max 0 (x.end_line - x.start_line + 1) =
      x.end_line - x.start_line + 1 := by omega
  rw [hmax]

/-- C2: an accepted patch result carries a plan whose edits all lie in the
allowed-files set gathered from the failure context and whose predicted
size — the sum over edits of `(end_line − start_line + 1)` plus the
replacement's line count — is at most `maxPatchLines`; a candidate plan
with an out-of-scope edit is rejected with `file_out_of_scope`, and an
in-scope plan over the predicted budget with `patch_budget_exceeded`, and
neither is accepted. -/
theorem runPatchModel_scope_and_budget (cwd : String)
    (failures : FailuresDoc) (policy : ModelPolicy) (maxPatchLines : Int)
    (fs : FS) (call1 call2 : PatchCall) :
    ((runPatchModel cwd failures policy maxPatchLines fs call1
        call2).1.accepted = true →
      ∃ plan,
        (runPatchModel cwd failures policy maxPatchLines fs call1
          call2).1.proposal = some plan ∧
        (∀ e ∈ plan.edits,
          e.file ∈ (gatherFailureContext failures).allowed_files) ∧
        specPredictedLines plan.edits ≤ maxPatchLines) ∧
    (∀ output1 parsed1 plan,
      policy.patchModel ∉ policy.hintOnly →
      call1 = .ok output1 parsed1 →
      (patchCandidate cwd output1 parsed1 call2).1 = some plan →
      ((∃ e ∈ plan.edits,
          e.file ∉ (gatherFailureContext failures).allowed_files) →
        (runPatchModel cwd failures policy maxPatchLines fs call1
          call2).1.accepted = false ∧
        (runPatchModel cwd failures policy maxPatchLines fs call1
          call2).1.reason = some "file_out_of_scope") ∧
      ((∀ e ∈ plan.edits,
          e.file ∈ (gatherFailureContext failures).allowed_files) →
        (scoreEditPlan plan.edits failures maxPatchLines).predictedLines >
          maxPatchLines →
        (runPatchModel cwd failures policy maxPatchLines fs call1
          call2).1.accepted = false ∧
        (runPatchModel cwd failures policy maxPatchLines fs call1
          call2).1.reason = some "patch_budget_exceeded")) := by
  by_cases hho : policy.patchModel ∈ policy.hintOnly
  · constructor
    · intro hacc
      simp only [runPatchModel, if_pos hho] at hacc
      exact absurd hacc (by simp)
    · intro o1 p1 plan hnho _ _
      exact absurd hho hnho
  · cases call1 with
    | err reason stderr =>
      constructor
      · intro hacc
        simp only [runPatchModel, if_neg hho] at hacc
        exact absurd hacc (by simp)
      · intro o1 p1 plan hnho hcall hcand
        exact absurd hcall (by simp)
    | ok output1 parsed1 =>
      rcases hpc : patchCandidate cwd output1 parsed1 call2 with
        ⟨planOpt, outF⟩
      cases planOpt with
      | none =>
        constructor
        · intro hacc
          simp only [runPatchModel, if_neg hho, hpc] at hacc
          exact absurd hacc (by simp)
        · intro o1 p1 plan hnho hcall hcand
          injection hcall with h1 h2
          rw [← h1, ← h2, hpc] at hcand
          exact absurd hcand (by simp)
      | some plan0 =>
        by_cases hoos : ∀ e ∈ plan0.edits,
            e.file ∈ (gatherFailureContext failures).allowed_files
        · -- all edits in scope
          have hfil : ((plan0.edits.map (·.file)).filter
              (fun file =>
                file ∉ (gatherFailureContext failures).allowed_files)) =
              [] := by
            rw [List.filter_eq_nil_iff]
            intro a ha
            rcases List.mem_map.mp ha with ⟨e, he, hef⟩
            simp [← hef, hoos e he]
          by_cases hpred :
              (scoreEditPlan plan0.edits failures
                maxPatchLines).predictedLines > maxPatchLines
          · -- over budget: rejected with patch_budget_exceeded
            have hres : (runPatchModel cwd failures policy maxPatchLines
                fs (.ok output1 parsed1) call2).1 =
                { attempted := true, accepted := false,
                  model := policy.patchModel,
                  reason := some "patch_budget_exceeded",
                  predicted_lines := some (scoreEditPlan plan0.edits
                    failures maxPatchLines).predictedLines,
                  max_patch_lines := some maxPatchLines } := by
              simp only [runPatchModel, if_neg hho, hpc]
              rw [if_neg (not_not_intro hfil)]
              rw [if_pos hpred]
            constructor
            · intro hacc
              rw [hres] at hacc
              exact absurd hacc (by simp)
            · intro o1 p1 plan hnho hcall hcand
              injection hcall with h1 h2
              rw [← h1, ← h2, hpc] at hcand
              simp only [Option.some.injEq] at hcand
              subst hcand
              exact ⟨fun hex => absurd hoos (by
                  rcases hex with ⟨e, he, hne⟩
                  intro hall
                  exact hne (hall e he)),
                fun _ _ => ⟨by rw [hres], by rw [hres]⟩⟩
          · -- within budget
            by_cases hscore : (scoreEditPlan plan0.edits failures
                maxPatchLines).score < 50
            · have hres : (runPatchModel cwd failures policy maxPatchLines
                  fs (.ok output1 parsed1) call2).1 =
                  { attempted := true, accepted := false,
                    model := policy.patchModel,
                    reason := some "diff_score_too_low",
                    score := some (scoreEditPlan plan0.edits failures
                      maxPatchLines).score,
                    touched_files := (scoreEditPlan plan0.edits failures
                      maxPatchLines).touchedFiles,
                    proposal := some plan0 } := by
                simp only [runPatchModel, if_neg hho, hpc]
                rw [if_neg (not_not_intro hfil)]
                rw [if_neg hpred]
                rw [if_pos hscore]
              constructor
              · intro hacc
                rw [hres] at hacc
                exact absurd hacc (by simp)
              · intro o1 p1 plan hnho hcall hcand
                injection hcall with h1 h2
                rw [← h1, ← h2, hpc] at hcand
                simp only [Option.some.injEq] at hcand
                subst hcand
                exact ⟨fun hex => absurd hoos (by
                    rcases hex with ⟨e, he, hne⟩
                    intro hall
                    exact hne (hall e he)),
                  fun _ hp => absurd hp hpred⟩
            · -- apply
              rcases happ : applyEditPlan cwd plan0 fs with ⟨outc, fs2⟩
              cases outc with
              | failed r =>
                have hres : (runPatchModel cwd failures policy
                    maxPatchLines fs (.ok output1 parsed1) call2).1 =
                    { attempted := true, accepted := false,
                      model := policy.patchModel,
                      reason := some "apply_plan_failed",
                      details := some r, proposal := some plan0 } := by
                  simp only [runPatchModel, if_neg hho, hpc]
                  rw [if_neg (not_not_intro hfil)]
                  rw [if_neg hpred]
                  rw [if_neg hscore]
                  rw [happ]
                constructor
                · intro hacc
                  rw [hres] at hacc
                  exact absurd hacc (by simp)
                · intro o1 p1 plan hnho hcall hcand
                  injection hcall with h1 h2
                  rw [← h1, ← h2, hpc] at hcand
                  simp only [Option.some.injEq] at hcand
                  subst hcand
                  exact ⟨fun hex => absurd hoos (by
                      rcases hex with ⟨e, he, hne⟩
                      intro hall
                      exact hne (hall e he)),
                    fun _ hp => absurd hp hpred⟩
              | ok touched =>
                have hres : (runPatchModel cwd failures policy
                    maxPatchLines fs (.ok output1 parsed1) call2).1 =
                    { attempted := true, accepted := true,
                      model := policy.patchModel,
                      score := some (scoreEditPlan plan0.edits failures
                        maxPatchLines).score,
                      patch_lines := some (scoreEditPlan plan0.edits
                        failures maxPatchLines).predictedLines,
                      touched_files := (scoreEditPlan plan0.edits failures
                        maxPatchLines).touchedFiles,
                      summary := some plan0.summary,
                      proposal := some plan0 } := by
                  simp only [runPatchModel, if_neg hho, hpc]
                  rw [if_neg (not_not_intro hfil)]
                  rw [if_neg hpred]
                  rw [if_neg hscore]
                  rw [happ]
                have hranges := applyEditPlanGo_ranges cwd plan0.edits fs
                  [] touched fs2 happ
                constructor
                · intro _
                  refine ⟨plan0, by rw [hres], hoos, ?_⟩
                  rw [specPredictedLines_eq_scoreEditPlan failures
                    maxPatchLines plan0.edits hranges]
                  omega
                · intro o1 p1 plan hnho hcall hcand
                  injection hcall with h1 h2
                  rw [← h1, ← h2, hpc] at hcand
                  simp only [Option.some.injEq] at hcand
                  subst hcand
                  exact ⟨fun hex => absurd hoos (by
                      rcases hex with ⟨e, he, hne⟩
                      intro hall
                      exact hne (hall e he)),
                    fun _ hp => absurd hp hpred⟩
        · -- an edit out of scope: rejected with file_out_of_scope
          have hfil : ((plan0.edits.map (·.file)).filter
              (fun file =>
                file ∉ (gatherFailureContext failures).allowed_files)) ≠
              [] := by
            intro hnil
            apply hoos
            intro e he
            by_contra hne
            have hmem : e.file ∈ (plan0.edits.map (·.file)).filter
                (fun file =>
                  file ∉ (gatherFailureContext failures).allowed_files) :=
              List.mem_filter.mpr ⟨List.mem_map.mpr ⟨e, he, rfl⟩,
                by simpa using hne⟩
            rw [hnil] at hmem
            simp at hmem
          have hres : (runPatchModel cwd failures policy maxPatchLines fs
              (.ok output1 parsed1) call2).1 =
              { attempted := true, accepted := false,
                model := policy.patchModel,
                reason := some "file_out_of_scope",
                out_of_scope_files := (plan0.edits.map (·.file)).filter
                  (fun file =>
                    file ∉ (gatherFailureContext failures).allowed_files),
                proposal := some plan0 } := by
            simp only [runPatchModel, if_neg hho, hpc]
            rw [if_pos hfil]
          constructor
          · intro hacc
            rw [hres] at hacc
            exact absurd hacc (by simp)
          · intro o1 p1 plan hnho hcall hcand
            injection hcall with h1 h2
            rw [← h1, ← h2, hpc] at hcand
            simp only [Option.some.injEq] at hcand
            subst hcand
            exact ⟨fun _ => ⟨by rw [hres], by rw [hres]⟩,
              fun hall _ => absurd hall hoos⟩

/-- Witness for C2: a concrete accepted single-edit plan lies in scope and
within budget. -/
theorem runPatchModel_scope_and_budget_witness :
    ∃ plan,
      (runPatchModel "/w" sampleFailures sampleModelPolicy 150 sampleTree
        samplePatchCall (.err "" "")).1.proposal = some plan ∧
      (∀ e ∈ plan.edits,
        e.file ∈ (gatherFailureContext sampleFailures).allowed_files) ∧
      specPredictedLines plan.edits ≤ 150 :=
  (runPatchModel_scope_and_budget "/w" sampleFailures sampleModelPolicy 150
    sampleTree samplePatchCall (.err "" "")).1 (by decide)
